import Mathlib

/-!
Verification development for the NCrystal Geant4 material-cache fragment
(`G4NCMatHelper.cc`) and the CMake builtin-plugin registration check.

The C++ sources are shallowly embedded: pure helper functions become Lean
functions, the two material caches become explicit state passing over a
`G4State` record, external collaborators (NCrystal factories, the G4 NIST
database, the `MatCfg` canonicalizer) become parameters collected in an
`Env` record, and C++ exceptions become `Except NCError`.
-/

namespace NCG4

/-! ## Basic helpers from G4NCMatHelper.cc -/

/-- `constexpr unsigned specialZValueDeuterium = 1001;` -/
def specialZValueDeuterium : Nat := 1001

/-- `bool zIsDeuterium(unsigned z)` from G4NCMatHelper.cc. -/
def zIsDeuterium (z : Nat) : Bool :=
  z == specialZValueDeuterium

/-- `bool validNCrystalZValue(unsigned z)` from G4NCMatHelper.cc:
`(z > 0 && z < 120) || zIsDeuterium(z)`. -/
def validNCrystalZValue (z : Nat) : Bool :=
  (decide (0 < z) && decide (z < 120)) || zIsDeuterium z

/-- Loop body of `greatestCommonDivisor`, translated with an explicit fuel
argument so the kernel can evaluate it (the C++ loop variant `b` strictly
decreases, so `fuel ≥ b` suffices). -/
def gcdLoop : Nat → Nat → Nat → Nat
  | _, a, 0 => a
  | 0, a, _ => a
  | fuel + 1, a, b => gcdLoop fuel b (a % b)

/-- `unsigned greatestCommonDivisor(unsigned a, unsigned b)` from
G4NCMatHelper.cc: the Euclidean loop `while (b) { tmp = a % b; a = b; b = tmp; }`. -/
def greatestCommonDivisor (a b : Nat) : Nat :=
  gcdLoop b a b

theorem gcdLoop_eq_gcd (fuel : Nat) :
    ∀ a b, b ≤ fuel → gcdLoop fuel a b = Nat.gcd a b := by
  induction fuel with
  | zero =>
    intro a b hb
    interval_cases b
    simp [gcdLoop]
  | succ fuel ih =>
    intro a b hb
    match b with
    | 0 => simp [gcdLoop]
    | c + 1 =>
      show gcdLoop fuel (c + 1) (a % (c + 1)) = Nat.gcd a (c + 1)
      rw [ih (c + 1) (a % (c + 1))
            (Nat.le_of_lt_succ (Nat.lt_of_lt_of_le (Nat.mod_lt _ (Nat.succ_pos c)) hb))]
      rw [Nat.gcd_comm (c + 1) (a % (c + 1)), ← Nat.gcd_rec (c + 1) a, Nat.gcd_comm]

theorem greatestCommonDivisor_eq_gcd (a b : Nat) :
    greatestCommonDivisor a b = Nat.gcd a b :=
  gcdLoop_eq_gcd b a b (Nat.le_refl b)

/-! ## Error and info model

`NCRYSTAL_THROW(kind, msg)` raises an `NCrystal::Error::<kind>` exception;
we model the kinds appearing in the translated code plus a catch-all for
errors produced by the external collaborators. -/

instance instDecEqExcept {ε α : Type} [DecidableEq ε] [DecidableEq α] :
    DecidableEq (Except ε α) := fun x y =>
  match x, y with
  | .ok a, .ok b =>
    if h : a = b then .isTrue (by rw [h]) else .isFalse (by simp [h])
  | .ok _, .error _ => .isFalse (by simp)
  | .error _, .ok _ => .isFalse (by simp)
  | .error e, .error f =>
    if h : e = f then .isTrue (by rw [h]) else .isFalse (by simp [h])

inductive NCErrorKind where
  | BadInput
  | MissingInfo
  | Other
deriving Repr, DecidableEq

structure NCError where
  kind : NCErrorKind
  msg : String
deriving Repr, DecidableEq

/-- One entry of `NCrystal::AtomList` as used by the translated code:
`atomic_number` and `number_per_unit_cell`. -/
structure AtomData where
  atomic_number : Nat
  number_per_unit_cell : Nat
deriving Repr, DecidableEq

/-- The fields of `NCrystal::Info` consumed by G4NCMatHelper.cc.  The info
object is produced by the external `NCrystal::createInfo` factory; numbers
are modelled as rationals. -/
structure NCInfo where
  hasComposition : Bool
  composition : List (String × ℚ)
  hasAtomInfo : Bool
  atomInfo : List AtomData
  hasDensity : Bool
  density : ℚ
  hasTemperature : Bool
  temperature : ℚ
deriving Repr, DecidableEq

/-! ## getChemicalFormula (G4NCMatHelper.cc lines 68-117) -/

/-- The monoatomic special case of `getChemicalFormula`: if the info has a
composition of size one whose element resolves (via the external NIST
database `getZ`) to a valid Z value, the formula is just `[(z,1)]`. -/
def monoatomicZ (getZ : String → Nat) (info : NCInfo) : Option Nat :=
  if info.hasComposition && info.composition.length == 1 then
    match info.composition.head? with
    | some ef => if validNCrystalZValue (getZ ef.1) then some (getZ ef.1) else none
    | none => none
  else none

/-- The collection loop of `getChemicalFormula`: throw `BadInput` on the
first invalid atomic number, keep `(z, count)` for entries with a nonzero
`number_per_unit_cell`. -/
def collectAtoms : List AtomData → Except NCError (List (Nat × Nat))
  | [] => .ok []
  | a :: rest =>
    if validNCrystalZValue a.atomic_number then
      match collectAtoms rest with
      | .ok tl =>
        .ok (if a.number_per_unit_cell ≠ 0 then
              (a.atomic_number, a.number_per_unit_cell) :: tl
            else tl)
      | .error e => .error e
    else
      .error ⟨.BadInput, "invalid atomic number"⟩

/-- The reduction step of `getChemicalFormula`: divide every count by the
greatest common divisor of all counts (computed by folding
`greatestCommonDivisor` starting from the first count). -/
def reduceCF (cf : List (Nat × Nat)) : List (Nat × Nat) :=
  match cf with
  | [] => []
  | c0 :: rest =>
    let thegcd := rest.foldl (fun acc c => greatestCommonDivisor acc c.2) c0.2
    (c0 :: rest).map (fun c => (c.1, c.2 / thegcd))

/-- The comparison used by `std::sort` on `std::pair<unsigned,unsigned>`:
lexicographic (non-strict) order. -/
def pairLe (p q : Nat × Nat) : Prop :=
  p.1 < q.1 ∨ (p.1 = q.1 ∧ p.2 ≤ q.2)

instance : DecidableRel pairLe := fun p q =>
  decidable_of_iff (p.1 < q.1 ∨ (p.1 = q.1 ∧ p.2 ≤ q.2)) Iff.rfl

instance : IsTotal (Nat × Nat) pairLe :=
  ⟨by intro p q; unfold pairLe; omega⟩

instance : IsTrans (Nat × Nat) pairLe :=
  ⟨by intro p q r; unfold pairLe; omega⟩

/-- The `std::sort(cf.begin(), cf.end())` step.  With the (total,
transitive, antisymmetric-up-to-equality) lexicographic pair order the
sorted permutation is unique, so insertion sort is a faithful model. -/
def sortCF (cf : List (Nat × Nat)) : List (Nat × Nat) :=
  List.insertionSort pairLe cf

/-- The sanity-check loop of `getChemicalFormula`: does some element appear
in two adjacent entries (after sorting)? -/
def dupCheck : List (Nat × Nat) → Bool
  | [] => false
  | [_] => false
  | a :: b :: rest => a.1 == b.1 || dupCheck (b :: rest)

/-- `void getChemicalFormula(const NCrystal::Info*, ChemicalFormula&)` from
G4NCMatHelper.cc, with the external `G4NistManager::GetZ` database passed
as `getZ`.  Returns the resulting `(atomic_number, count)` list, `.ok []`
when the info has no atom info (no integer counts available), and
`.error` where the C++ throws. -/
def getChemicalFormula (getZ : String → Nat) (info : NCInfo) :
    Except NCError (List (Nat × Nat)) :=
  match monoatomicZ getZ info with
  | some z => .ok [(z, 1)]
  | none =>
    if !info.hasAtomInfo then
      .ok []
    else
      match collectAtoms info.atomInfo with
      | .error e => .error e
      | .ok cf =>
        if cf.isEmpty then
          .error ⟨.BadInput, "Atomic composition info indicates an empty unit cell."⟩
        else
          let cf := sortCF (reduceCF cf)
          if dupCheck cf then
            .error ⟨.BadInput, "Atomic composition info has duplicate entries for same atomic number."⟩
          else
            .ok cf

/-- The entries `collectAtoms` keeps when every atomic number is valid. -/
def keptAtoms : List AtomData → List (Nat × Nat)
  | [] => []
  | a :: rest =>
    if a.number_per_unit_cell ≠ 0 then
      (a.atomic_number, a.number_per_unit_cell) :: keptAtoms rest
    else keptAtoms rest

theorem collectAtoms_ok (l : List AtomData)
    (h : ∀ a ∈ l, validNCrystalZValue a.atomic_number = true) :
    collectAtoms l = .ok (keptAtoms l) := by
  induction l with
  | nil => rfl
  | cons a rest ih =>
    have ha := h a (List.mem_cons_self a rest)
    have hrest := ih (fun b hb => h b (List.mem_cons_of_mem a hb))
    simp only [collectAtoms, ha, if_true, hrest, keptAtoms]

theorem collectAtoms_error (l : List AtomData)
    (h : ∃ a ∈ l, validNCrystalZValue a.atomic_number = false) :
    collectAtoms l = .error ⟨.BadInput, "invalid atomic number"⟩ := by
  induction l with
  | nil => simp at h
  | cons a rest ih =>
    obtain ⟨b, hb, hbv⟩ := h
    rcases List.mem_cons.mp hb with rfl | hb
    · simp [collectAtoms, hbv]
    · by_cases hav : validNCrystalZValue a.atomic_number = true
      · simp [collectAtoms, hav, ih ⟨b, hb, hbv⟩]
      · simp only [Bool.not_eq_true] at hav
        simp [collectAtoms, hav]

theorem keptAtoms_snd_ne_zero (l : List AtomData) :
    ∀ p ∈ keptAtoms l, p.2 ≠ 0 := by
  induction l with
  | nil => simp [keptAtoms]
  | cons a rest ih =>
    intro p hp
    by_cases hz : a.number_per_unit_cell ≠ 0
    · rw [keptAtoms, if_pos hz] at hp
      rcases List.mem_cons.mp hp with rfl | hp
      · exact hz
      · exact ih p hp
    · rw [keptAtoms, if_neg hz] at hp
      exact ih p hp

theorem keptAtoms_ne_nil (l : List AtomData)
    (h : ∃ a ∈ l, a.number_per_unit_cell ≠ 0) : keptAtoms l ≠ [] := by
  induction l with
  | nil => simp at h
  | cons a rest ih =>
    obtain ⟨b, hb, hbz⟩ := h
    rcases List.mem_cons.mp hb with rfl | hb
    · rw [keptAtoms, if_pos hbz]
      exact List.cons_ne_nil _ _
    · by_cases haz : a.number_per_unit_cell ≠ 0
      · rw [keptAtoms, if_pos haz]
        exact List.cons_ne_nil _ _
      · rw [keptAtoms, if_neg haz]
        exact ih ⟨b, hb, hbz⟩

theorem keptAtoms_all_zero (l : List AtomData)
    (h : ∀ a ∈ l, a.number_per_unit_cell = 0) : keptAtoms l = [] := by
  induction l with
  | nil => rfl
  | cons a rest ih =>
    have ha := h a (List.mem_cons_self a rest)
    rw [keptAtoms, if_neg (by simp [ha])]
    exact ih (fun b hb => h b (List.mem_cons_of_mem a hb))

/-! ### gcd-fold lemmas for the reduction step -/

theorem gcdFun_eq : (fun acc (c : Nat × Nat) => greatestCommonDivisor acc c.2)
    = (fun acc c => Nat.gcd acc c.2) := by
  funext acc c
  exact greatestCommonDivisor_eq_gcd acc c.2

theorem foldl_gcd_dvd (l : List Nat) (a : Nat) :
    l.foldl Nat.gcd a ∣ a ∧ ∀ x ∈ l, l.foldl Nat.gcd a ∣ x := by
  induction l generalizing a with
  | nil => simp
  | cons x l ih =>
    simp only [List.foldl_cons]
    obtain ⟨h1, h2⟩ := ih (Nat.gcd a x)
    refine ⟨h1.trans (Nat.gcd_dvd_left a x), ?_⟩
    intro y hy
    rcases List.mem_cons.mp hy with rfl | hy
    · exact h1.trans (Nat.gcd_dvd_right a y)
    · exact h2 y hy

theorem foldl_gcd_div (l : List Nat) (a g : Nat) (ha : g ∣ a)
    (hl : ∀ x ∈ l, g ∣ x) :
    (l.map (· / g)).foldl Nat.gcd (a / g) = (l.foldl Nat.gcd a) / g := by
  induction l generalizing a with
  | nil => simp
  | cons x l ih =>
    simp only [List.map_cons, List.foldl_cons]
    rw [Nat.gcd_div ha (hl x (List.mem_cons_self x l))]
    exact ih (Nat.gcd a x) (Nat.dvd_gcd ha (hl x (List.mem_cons_self x l)))
      (fun y hy => hl y (List.mem_cons_of_mem x hy))

theorem reduceCF_firsts (cf : List (Nat × Nat)) :
    (reduceCF cf).map Prod.fst = cf.map Prod.fst := by
  match cf with
  | [] => rfl
  | c0 :: rest => simp [reduceCF]

/-- After dividing all counts by the folded gcd, the folded gcd of the
resulting counts is 1 (provided the first count is nonzero). -/
theorem reduceCF_gcd_one (c0 : Nat × Nat) (rest : List (Nat × Nat))
    (h0 : c0.2 ≠ 0) :
    ((reduceCF (c0 :: rest)).map Prod.snd).foldl greatestCommonDivisor 0 = 1 := by
  have hrw : ∀ (l : List Nat) (a : Nat),
      l.foldl greatestCommonDivisor a = l.foldl Nat.gcd a := by
    intro l a
    induction l generalizing a with
    | nil => rfl
    | cons x l ih => simp only [List.foldl_cons, greatestCommonDivisor_eq_gcd, ih]
  set g := rest.foldl (fun acc c => greatestCommonDivisor acc c.2) c0.2 with hg
  have hgg : g = (rest.map Prod.snd).foldl Nat.gcd c0.2 := by
    rw [hg, gcdFun_eq, ← List.foldl_map]
  obtain ⟨hdvd0, hdvdall⟩ := foldl_gcd_dvd (rest.map Prod.snd) c0.2
  rw [← hgg] at hdvd0 hdvdall
  have hgne : g ≠ 0 := by
    intro hz
    rw [hz] at hdvd0
    exact h0 (Nat.eq_zero_of_zero_dvd hdvd0)
  have hmap : (reduceCF (c0 :: rest)).map Prod.snd
      = (c0.2 / g) :: ((rest.map Prod.snd).map (· / g)) := by
    simp [reduceCF, ← hg, List.map_map]
  rw [hmap, hrw, List.foldl_cons, Nat.gcd_zero_left]
  rw [foldl_gcd_div (rest.map Prod.snd) c0.2 g hdvd0
        (fun x hx => hdvdall x hx)]
  rw [← hgg, Nat.div_self (Nat.pos_of_ne_zero hgne)]

/-! ### dupCheck and strict sortedness -/

theorem dupCheck_eq_false_of_nodup (l : List (Nat × Nat))
    (h : (l.map Prod.fst).Nodup) : dupCheck l = false := by
  match l with
  | [] => rfl
  | [_] => rfl
  | a :: b :: rest =>
    simp only [dupCheck, Bool.or_eq_false_iff]
    simp only [List.map_cons, List.nodup_cons, List.mem_cons, List.mem_map] at h
    constructor
    · have : ¬ a.1 = b.1 := fun hc => h.1 (Or.inl hc)
      simpa using this
    · exact dupCheck_eq_false_of_nodup (b :: rest) (by
        simp only [List.map_cons, List.nodup_cons, List.mem_map]
        exact ⟨fun hc => h.2.1 hc, h.2.2⟩)

theorem nodup_of_sorted_dupCheck_false (l : List (Nat × Nat))
    (hs : List.Sorted pairLe l) (h : dupCheck l = false) :
    (l.map Prod.fst).Nodup := by
  match l with
  | [] => simp
  | [_] => simp
  | a :: b :: rest =>
    simp only [dupCheck, Bool.or_eq_false_iff] at h
    have hab : a.1 ≠ b.1 := by simpa using h.1
    have hs' : List.Sorted pairLe (b :: rest) := hs.of_cons
    have ihr := nodup_of_sorted_dupCheck_false (b :: rest) hs' h.2
    simp only [List.map_cons, List.nodup_cons, List.mem_cons, List.mem_map]
    refine ⟨?_, by simpa using ihr⟩
    rintro (hc | ⟨x, hx, hxa⟩)
    · exact hab hc
    · -- a.1 = x.1 for some x in rest, but a.1 < b.1 ≤ x.1
      have haLb : a.1 < b.1 := by
        have := List.rel_of_sorted_cons hs b (List.mem_cons_self b rest)
        rcases this with h1 | ⟨h1, _⟩
        · exact h1
        · exact absurd h1 hab
      have hbLx : b.1 ≤ x.1 := by
        have := List.rel_of_sorted_cons hs' x hx
        rcases this with h1 | ⟨h1, _⟩
        · exact Nat.le_of_lt h1
        · exact Nat.le_of_eq h1
      omega

theorem chain_lt_of_sorted_nodup (l : List (Nat × Nat))
    (hs : List.Sorted pairLe l) (h : (l.map Prod.fst).Nodup) :
    List.Chain' (fun p q : Nat × Nat => p.1 < q.1) l := by
  match l with
  | [] => simp
  | [_] => simp
  | a :: b :: rest =>
    have hab : a.1 ≠ b.1 := by
      simp only [List.map_cons, List.nodup_cons, List.mem_cons, List.mem_map] at h
      exact fun hc => h.1 (Or.inl hc)
    have haLb : a.1 < b.1 := by
      have := List.rel_of_sorted_cons hs b (List.mem_cons_self b rest)
      rcases this with h1 | ⟨h1, _⟩
      · exact h1
      · exact absurd h1 hab
    have ihr := chain_lt_of_sorted_nodup (b :: rest) hs.of_cons (by
      simp only [List.map_cons, List.nodup_cons] at h ⊢
      exact ⟨h.2.1, h.2.2⟩)
    exact List.Chain'.cons haLb ihr

theorem sortCF_perm (l : List (Nat × Nat)) : (sortCF l).Perm l :=
  List.perm_insertionSort pairLe l

theorem sortCF_sorted (l : List (Nat × Nat)) : List.Sorted pairLe (sortCF l) :=
  List.sorted_insertionSort pairLe l

theorem foldl_gcdC_eq (l : List Nat) (a : Nat) :
    l.foldl greatestCommonDivisor a = l.foldl Nat.gcd a := by
  induction l generalizing a with
  | nil => rfl
  | cons x l ih => simp only [List.foldl_cons, greatestCommonDivisor_eq_gcd, ih]

instance : RightCommutative Nat.gcd :=
  ⟨fun b a1 a2 => by rw [Nat.gcd_assoc, Nat.gcd_comm a1 a2, ← Nat.gcd_assoc]⟩

theorem foldl_gcd_perm {l1 l2 : List Nat} (h : l1.Perm l2) (a : Nat) :
    l1.foldl Nat.gcd a = l2.foldl Nat.gcd a :=
  h.foldl_eq a

/-- Evaluation of `getChemicalFormula` on the successful atom-info path. -/
theorem getChemicalFormula_ok_of (getZ : String → Nat) (info : NCInfo)
    (hm : monoatomicZ getZ info = none)
    (hAI : info.hasAtomInfo = true)
    (hcol : collectAtoms info.atomInfo = .ok (keptAtoms info.atomInfo))
    (hne : keptAtoms info.atomInfo ≠ [])
    (hdup : dupCheck (sortCF (reduceCF (keptAtoms info.atomInfo))) = false) :
    getChemicalFormula getZ info
      = .ok (sortCF (reduceCF (keptAtoms info.atomInfo))) := by
  unfold getChemicalFormula
  rw [hm, hAI, hcol]
  simp only [Bool.not_true, Bool.false_eq_true, if_false]
  rw [if_neg (by simpa using hne), if_neg (by simp [hdup])]

/-- **C9.** For a material whose info carries atom info, the chemical
formula computed by `getChemicalFormula` is reduced to lowest terms (the
Euclidean gcd of the per-element counts is 1) and strictly increasing in
atomic number; and, outside the monoatomic shortcut, a `BadInput` error is
raised if some atomic number is invalid, if the unit cell is empty, or if
an atomic number appears twice. -/
theorem claim_C9 (getZ : String → Nat) (info : NCInfo)
    (hAI : info.hasAtomInfo = true) :
    ((∀ a ∈ info.atomInfo, validNCrystalZValue a.atomic_number = true) →
     (∃ a ∈ info.atomInfo, a.number_per_unit_cell ≠ 0) →
     ((keptAtoms info.atomInfo).map Prod.fst).Nodup →
     ∃ cf, getChemicalFormula getZ info = .ok cf ∧
       (cf.map Prod.snd).foldl greatestCommonDivisor 0 = 1 ∧
       List.Chain' (fun p q : Nat × Nat => p.1 < q.1) cf)
  ∧ (monoatomicZ getZ info = none →
     (∃ a ∈ info.atomInfo, validNCrystalZValue a.atomic_number = false) →
     ∃ m, getChemicalFormula getZ info = .error ⟨.BadInput, m⟩)
  ∧ (monoatomicZ getZ info = none →
     (∀ a ∈ info.atomInfo, a.number_per_unit_cell = 0) →
     (∀ a ∈ info.atomInfo, validNCrystalZValue a.atomic_number = true) →
     ∃ m, getChemicalFormula getZ info = .error ⟨.BadInput, m⟩)
  ∧ (monoatomicZ getZ info = none →
     (∀ a ∈ info.atomInfo, validNCrystalZValue a.atomic_number = true) →
     ¬ ((keptAtoms info.atomInfo).map Prod.fst).Nodup →
     ∃ m, getChemicalFormula getZ info = .error ⟨.BadInput, m⟩) := by
  refine ⟨?_, ?_, ?_, ?_⟩
  · -- successful path
    intro hv hnz hnd
    cases hm : monoatomicZ getZ info with
    | some z =>
      refine ⟨[(z, 1)], by simp [getChemicalFormula, hm], ?_, by simp⟩
      simp [greatestCommonDivisor, gcdLoop]
    | none =>
      have hcol := collectAtoms_ok info.atomInfo hv
      have hne := keptAtoms_ne_nil _ hnz
      have h0 : ∀ p ∈ keptAtoms info.atomInfo, p.2 ≠ 0 :=
        keptAtoms_snd_ne_zero _
      -- nodup firsts carries over to the sorted, reduced formula
      have hfr : (reduceCF (keptAtoms info.atomInfo)).map Prod.fst
          = (keptAtoms info.atomInfo).map Prod.fst := reduceCF_firsts _
      have hperm := sortCF_perm (reduceCF (keptAtoms info.atomInfo))
      have hndsorted : ((sortCF (reduceCF (keptAtoms info.atomInfo))).map Prod.fst).Nodup := by
        rw [(hperm.map Prod.fst).nodup_iff, hfr]
        exact hnd
      have hdup := dupCheck_eq_false_of_nodup _ hndsorted
      refine ⟨sortCF (reduceCF (keptAtoms info.atomInfo)),
        getChemicalFormula_ok_of getZ info hm hAI hcol hne hdup, ?_, ?_⟩
      · -- gcd of counts is 1
        obtain ⟨c0, rest, hk⟩ := List.exists_cons_of_ne_nil hne
        have hone : ((reduceCF (keptAtoms info.atomInfo)).map Prod.snd).foldl
            greatestCommonDivisor 0 = 1 := by
          rw [hk]
          exact reduceCF_gcd_one c0 rest (h0 c0 (by rw [hk]; exact List.mem_cons_self c0 rest))
        rw [foldl_gcdC_eq, foldl_gcd_perm (hperm.map Prod.snd) 0, ← foldl_gcdC_eq]
        exact hone
      · exact chain_lt_of_sorted_nodup _ (sortCF_sorted _) hndsorted
  · -- invalid atomic number
    intro hm hbad
    refine ⟨"invalid atomic number", ?_⟩
    unfold getChemicalFormula
    rw [hm, hAI, collectAtoms_error info.atomInfo hbad]
    simp
  · -- empty unit cell
    intro hm hz hv
    refine ⟨"Atomic composition info indicates an empty unit cell.", ?_⟩
    unfold getChemicalFormula
    rw [hm, hAI, collectAtoms_ok info.atomInfo hv, keptAtoms_all_zero info.atomInfo hz]
    simp
  · -- duplicate atomic number
    intro hm hv hnd
    have hcol := collectAtoms_ok info.atomInfo hv
    by_cases hne : keptAtoms info.atomInfo = []
    · -- no kept entries: the empty-unit-cell error fires instead?  The
      -- duplicate hypothesis is impossible here: an empty map is nodup.
      exact absurd (by rw [hne]; simp) hnd
    · refine ⟨"Atomic composition info has duplicate entries for same atomic number.", ?_⟩
      have hfr : (reduceCF (keptAtoms info.atomInfo)).map Prod.fst
          = (keptAtoms info.atomInfo).map Prod.fst := reduceCF_firsts _
      have hperm := sortCF_perm (reduceCF (keptAtoms info.atomInfo))
      have hdup : dupCheck (sortCF (reduceCF (keptAtoms info.atomInfo))) = true := by
        by_contra hcf
        have hcf' : dupCheck (sortCF (reduceCF (keptAtoms info.atomInfo))) = false := by
          revert hcf
          cases dupCheck (sortCF (reduceCF (keptAtoms info.atomInfo))) <;> simp
        have := nodup_of_sorted_dupCheck_false _ (sortCF_sorted _) hcf'
        rw [(hperm.map Prod.fst).nodup_iff, hfr] at this
        exact hnd this
      unfold getChemicalFormula
      rw [hm, hAI, hcol]
      simp only [Bool.not_true, Bool.false_eq_true, if_false]
      rw [if_neg (by simpa using hne), if_pos (by simp [hdup])]

/-! ## getChemicalFormulaInHillSystemString (G4NCMatHelper.cc lines 120-181)

C++ `std::string` comparison is byte-wise lexicographic; for the ASCII
strings involved this coincides with codepoint-wise comparison, which we
define directly. -/

/-- Strict byte-wise lexicographic comparison of character lists
(`std::string::operator<`). -/
def charsLt : List Char → List Char → Bool
  | [], [] => false
  | [], _ :: _ => true
  | _ :: _, [] => false
  | a :: as, b :: bs =>
    if a.toNat < b.toNat then true
    else if b.toNat < a.toNat then false
    else charsLt as bs

def strLt (s t : String) : Bool := charsLt s.data t.data

def strLe (s t : String) : Bool := !(strLt t s)

theorem charsLt_irrefl (as : List Char) : charsLt as as = false := by
  induction as with
  | nil => rfl
  | cons a as ih => simp [charsLt, ih]

theorem charsLt_asymm (as bs : List Char) (h : charsLt as bs = true) :
    charsLt bs as = false := by
  induction as generalizing bs with
  | nil =>
    cases bs with
    | nil => simp [charsLt] at h
    | cons b bs => rfl
  | cons a as ih =>
    cases bs with
    | nil => simp [charsLt] at h
    | cons b bs =>
      by_cases h1 : a.toNat < b.toNat
      · simp [charsLt, h1, Nat.lt_asymm h1]
      · by_cases h2 : b.toNat < a.toNat
        · simp [charsLt, h1, h2] at h
        · simp only [charsLt, if_neg h1, if_neg h2] at h
          simp only [charsLt, if_neg h2, if_neg h1]
          exact ih bs h

theorem charsLt_trans (as bs cs : List Char) (h1 : charsLt as bs = true)
    (h2 : charsLt bs cs = true) : charsLt as cs = true := by
  induction as generalizing bs cs with
  | nil =>
    cases cs with
    | nil =>
      cases bs with
      | nil => exact h1
      | cons b bs => simp [charsLt] at h2
    | cons c cs => rfl
  | cons a as ih =>
    cases bs with
    | nil => simp [charsLt] at h1
    | cons b bs =>
      cases cs with
      | nil => simp [charsLt] at h2
      | cons c cs =>
        simp only [charsLt] at h1 h2 ⊢
        by_cases hab : a.toNat < b.toNat
        · by_cases hbc : b.toNat < c.toNat
          · rw [if_pos (Nat.lt_trans hab hbc)]
          · by_cases hcb : c.toNat < b.toNat
            · simp [hbc, hcb] at h2
            · have hbc' : b.toNat = c.toNat := by omega
              rw [if_pos (by omega)]
        · by_cases hba : b.toNat < a.toNat
          · simp [hab, hba] at h1
          · have hab' : a.toNat = b.toNat := by omega
            by_cases hbc : b.toNat < c.toNat
            · rw [if_pos (by omega)]
            · by_cases hcb : c.toNat < b.toNat
              · simp [hbc, hcb] at h2
              · rw [if_neg hab, if_neg hba] at h1
                rw [if_neg hbc, if_neg hcb] at h2
                rw [if_neg (by omega), if_neg (by omega)]
                exact ih bs cs h1 h2

theorem char_toNat_inj {a b : Char} (h : a.toNat = b.toNat) : a = b := by
  apply Char.ext
  apply UInt32.ext
  exact h

theorem charsLt_trichotomy (as bs : List Char) :
    charsLt as bs = true ∨ charsLt bs as = true ∨ as = bs := by
  induction as generalizing bs with
  | nil =>
    cases bs with
    | nil => right; right; rfl
    | cons b bs => left; rfl
  | cons a as ih =>
    cases bs with
    | nil => right; left; rfl
    | cons b bs =>
      by_cases hab : a.toNat < b.toNat
      · left; simp [charsLt, hab]
      · by_cases hba : b.toNat < a.toNat
        · right; left; simp [charsLt, hba]
        · have hab' : a = b := char_toNat_inj (by omega)
          subst hab'
          rcases ih bs with h | h | h
          · left; simp [charsLt, h]
          · right; left; simp [charsLt, h]
          · right; right; rw [h]

theorem string_ext {s t : String} (h : s.data = t.data) : s = t := by
  cases s
  cases t
  exact congrArg String.mk h

theorem strLe_refl (s : String) : strLe s s = true := by
  simp [strLe, strLt, charsLt_irrefl]

theorem strLe_total (s t : String) : strLe s t = true ∨ strLe t s = true := by
  by_cases h : strLt t s = true
  · right
    simp [strLe, strLt]
    have := charsLt_asymm t.data s.data h
    simpa [strLt] using this
  · left
    simp only [strLe]
    simp only [Bool.not_eq_true] at h
    rw [h]
    rfl

theorem strLe_trans (s t u : String) (h1 : strLe s t = true)
    (h2 : strLe t u = true) : strLe s u = true := by
  simp only [strLe, Bool.not_eq_true', Bool.not_eq_true] at h1 h2 ⊢
  by_contra hc
  simp only [Bool.not_eq_false] at hc
  rcases charsLt_trichotomy t.data u.data with h | h | h
  · have := charsLt_trans t.data u.data s.data h hc
    simp [strLt, this] at h1
  · simp [strLt, h] at h2
  · have htu : t = u := string_ext h
    subst htu
    exact absurd hc (by simp [h1])

theorem strLe_of_strLt {s t : String} (h : strLt s t = true) : strLe s t = true := by
  simp only [strLe, Bool.not_eq_true']
  exact charsLt_asymm s.data t.data h

theorem strLt_of_strLe_ne {s t : String} (h : strLe s t = true) (hne : s ≠ t) :
    strLt s t = true := by
  simp only [strLe, Bool.not_eq_true'] at h
  rcases charsLt_trichotomy s.data t.data with h1 | h1 | h1
  · exact h1
  · rw [strLt] at h; rw [h1] at h; cases h
  · exact absurd (string_ext h1) hne

theorem strLe_antisymm {s t : String} (h1 : strLe s t = true)
    (h2 : strLe t s = true) : s = t := by
  simp only [strLe, Bool.not_eq_true'] at h1 h2
  rcases charsLt_trichotomy s.data t.data with h | h | h
  · rw [strLt, h] at h2; cases h2
  · rw [strLt, h] at h1; cases h1
  · exact string_ext h

/-- The comparison `std::sort` uses on `std::pair<std::string,std::string>`
(sort key, rendered fragment), as a non-strict total order. -/
def entryLe (e f : String × String) : Prop :=
  strLt e.1 f.1 = true ∨ (e.1 = f.1 ∧ strLe e.2 f.2 = true)

instance : DecidableRel entryLe := fun e f =>
  decidable_of_iff (strLt e.1 f.1 = true ∨ (e.1 = f.1 ∧ strLe e.2 f.2 = true)) Iff.rfl

instance : IsTotal (String × String) entryLe := by
  constructor
  intro e f
  by_cases h : e.1 = f.1
  · rcases strLe_total e.2 f.2 with h2 | h2
    · exact Or.inl (Or.inr ⟨h, h2⟩)
    · exact Or.inr (Or.inr ⟨h.symm, h2⟩)
  · rcases charsLt_trichotomy e.1.data f.1.data with h1 | h1 | h1
    · exact Or.inl (Or.inl h1)
    · exact Or.inr (Or.inl h1)
    · exact absurd (string_ext h1) h

instance : IsTrans (String × String) entryLe := by
  constructor
  intro e f g h1 h2
  rcases h1 with h1 | ⟨h1e, h1l⟩
  · rcases h2 with h2 | ⟨h2e, h2l⟩
    · exact Or.inl (charsLt_trans _ _ _ h1 h2)
    · exact Or.inl (h2e ▸ h1)
  · rcases h2 with h2 | ⟨h2e, h2l⟩
    · exact Or.inl (h1e ▸ h2)
    · exact Or.inr ⟨h1e.trans h2e, strLe_trans _ _ _ h1l h2l⟩

/-- Whether any entry of the chemical formula is carbon (`Z == 6`);
the C++ loop with early `break`. -/
def anyCarbon (chemform : List (Nat × Nat)) : Bool :=
  chemform.any (fun c => c.1 == 6)

/-- Construction of one `(sortkey, symbol-and-count)` pair of
`getChemicalFormulaInHillSystemString`, with the external NIST element
symbol table passed as `db`. -/
def entryOf (db : List String) (anyC : Bool) (e : Nat × Nat) : String × String :=
  let z := e.1
  let k0 : String :=
    if anyC && (z == 1 || zIsDeuterium z || z == 6) then
      (if z == 6 then "1" else if z == 1 then "2" else "3")
    else ""
  let sbk : String × String :=
    if zIsDeuterium z then ("D", k0)
    else if z < db.length then (db.getD z "", k0)
    else ("Elem<" ++ toString z ++ ">", "\x7b" ++ "Elem<" ++ toString z ++ ">")
  let sortkey := if sbk.2 = "" then sbk.1 else sbk.2
  (sortkey, sbk.1 ++ (if e.2 ≠ 1 then toString e.2 else ""))

/-- `G4String getChemicalFormulaInHillSystemString(const ChemicalFormula&)`
from G4NCMatHelper.cc.  The `std::sort` over the total lexicographic order
on `(sortkey, fragment)` pairs produces the unique sorted permutation, so
insertion sort is a faithful model. -/
def getChemicalFormulaInHillSystemString (db : List String)
    (chemform : List (Nat × Nat)) : String :=
  let entries := chemform.map (entryOf db (anyCarbon chemform))
  let sorted := List.insertionSort entryLe entries
  String.join (sorted.map Prod.snd)

/-! ### Spec-side rendering of the Hill-system claim (C10) -/

/-- Modelled from the claim's words: the Hill-system position class of an
element.  When carbon is present anywhere in the formula, carbon comes
first, hydrogen second, deuterium third and everything else after;
without carbon all elements share one class (and are ordered
alphabetically by symbol). -/
def hillRank (anyC : Bool) (z : Nat) : Nat :=
  if anyC then
    (if z = 6 then 0 else if z = 1 then 1 else if zIsDeuterium z then 2 else 3)
  else 3

/-- The rendered symbol of an element: deuterium as "D", otherwise the
NIST symbol table entry. -/
def specSymbol (db : List String) (z : Nat) : String :=
  if zIsDeuterium z then "D" else db.getD z ""

/-- Modelled from the claim's words: the element order of the rendered
Hill-system string — by position class, alphabetically by symbol within a
class. -/
def hillSpecLe (db : List String) (anyC : Bool) (e f : Nat × Nat) : Prop :=
  hillRank anyC e.1 < hillRank anyC f.1 ∨
  (hillRank anyC e.1 = hillRank anyC f.1 ∧
    strLe (specSymbol db e.1) (specSymbol db f.1) = true)

instance (db : List String) (anyC : Bool) : DecidableRel (hillSpecLe db anyC) :=
  fun e f => decidable_of_iff
    (hillRank anyC e.1 < hillRank anyC f.1 ∨
      (hillRank anyC e.1 = hillRank anyC f.1 ∧
        strLe (specSymbol db e.1) (specSymbol db f.1) = true)) Iff.rfl

instance (db : List String) (anyC : Bool) : IsTotal (Nat × Nat) (hillSpecLe db anyC) := by
  constructor
  intro e f
  rcases Nat.lt_trichotomy (hillRank anyC e.1) (hillRank anyC f.1) with h | h | h
  · exact Or.inl (Or.inl h)
  · rcases strLe_total (specSymbol db e.1) (specSymbol db f.1) with h2 | h2
    · exact Or.inl (Or.inr ⟨h, h2⟩)
    · exact Or.inr (Or.inr ⟨h.symm, h2⟩)
  · exact Or.inr (Or.inl h)

instance (db : List String) (anyC : Bool) : IsTrans (Nat × Nat) (hillSpecLe db anyC) := by
  constructor
  intro e f g h1 h2
  rcases h1 with h1 | ⟨h1e, h1l⟩
  · rcases h2 with h2 | ⟨h2e, h2l⟩
    · exact Or.inl (Nat.lt_trans h1 h2)
    · exact Or.inl (h2e ▸ h1)
  · rcases h2 with h2 | ⟨h2e, h2l⟩
    · exact Or.inl (h1e ▸ h2)
    · exact Or.inr ⟨h1e.trans h2e, strLe_trans _ _ _ h1l h2l⟩

/-- Modelled from the claim's words: the rendered fragment of one element —
its symbol (deuterium as "D"), followed by its count unless the count is 1. -/
def specRender (db : List String) (e : Nat × Nat) : String :=
  specSymbol db e.1 ++ (if e.2 = 1 then "" else toString e.2)

/-! ### Sorting a mapped list agrees with mapping the sorted list -/

theorem orderedInsert_map_rel {α β : Type} (R : β → β → Prop) (S : α → α → Prop)
    [DecidableRel R] [DecidableRel S] (f : α → β) (a : α) (t : List α)
    (h : ∀ b ∈ t, (R (f a) (f b) ↔ S a b)) :
    List.orderedInsert R (f a) (t.map f) = (List.orderedInsert S a t).map f := by
  induction t with
  | nil => rfl
  | cons b t ih =>
    simp only [List.map_cons, List.orderedInsert]
    by_cases hS : S a b
    · rw [if_pos ((h b (List.mem_cons_self b t)).mpr hS), if_pos hS, List.map_cons,
        List.map_cons]
    · rw [if_neg (fun hR => hS ((h b (List.mem_cons_self b t)).mp hR)), if_neg hS,
        List.map_cons]
      rw [ih (fun c hc => h c (List.mem_cons_of_mem b hc))]

theorem insertionSort_map_rel {α β : Type} (R : β → β → Prop) (S : α → α → Prop)
    [DecidableRel R] [DecidableRel S] (f : α → β) (l : List α)
    (h : ∀ a ∈ l, ∀ b ∈ l, (R (f a) (f b) ↔ S a b)) :
    List.insertionSort R (l.map f) = (List.insertionSort S l).map f := by
  induction l with
  | nil => rfl
  | cons a t ih =>
    simp only [List.map_cons, List.insertionSort]
    rw [ih (fun x hx y hy =>
      h x (List.mem_cons_of_mem a hx) y (List.mem_cons_of_mem a hy))]
    apply orderedInsert_map_rel
    intro b hb
    have hb' : b ∈ t := (List.perm_insertionSort S t).mem_iff.mp hb
    exact h a (List.mem_cons_self a t) b (List.mem_cons_of_mem a hb')

/-! ### Head-character comparison helpers -/

/-- Does the string start with an ASCII uppercase letter? -/
def headUpper (s : String) : Bool :=
  match s.data with
  | [] => false
  | c :: _ => decide (65 ≤ c.toNat) && decide (c.toNat ≤ 90)

theorem headUpper_spec {s : String} (h : headUpper s = true) :
    ∃ c cs, s.data = c :: cs ∧ 65 ≤ c.toNat ∧ c.toNat ≤ 90 := by
  unfold headUpper at h
  cases hd : s.data with
  | nil => rw [hd] at h; cases h
  | cons c cs =>
    rw [hd] at h
    simp only [Bool.and_eq_true, decide_eq_true_eq] at h
    exact ⟨c, cs, rfl, h.1, h.2⟩

theorem strLt_of_heads {s t : String} {c d : Char} {cs ds : List Char}
    (hs : s.data = c :: cs) (ht : t.data = d :: ds) (h : c.toNat < d.toNat) :
    strLt s t = true := by
  rw [strLt, hs, ht]
  simp [charsLt, h]

theorem strLt_eq_false_of_heads {s t : String} {c d : Char} {cs ds : List Char}
    (hs : s.data = c :: cs) (ht : t.data = d :: ds) (h : d.toNat < c.toNat) :
    strLt s t = false := by
  rw [strLt, hs, ht]
  simp [charsLt, h, Nat.lt_asymm h]

theorem ne_of_heads {s t : String} {c d : Char} {cs ds : List Char}
    (hs : s.data = c :: cs) (ht : t.data = d :: ds) (h : c.toNat ≠ d.toNat) :
    s ≠ t := by
  intro he
  subst he
  rw [hs] at ht
  have : c = d := by
    have := List.head_eq_of_cons_eq ht
    exact this
  exact h (this ▸ rfl)

theorem if_count_swap (n : Nat) :
    (if n ≠ 1 then toString n else "") = (if n = 1 then "" else toString n) := by
  by_cases h : n = 1 <;> simp [h]

/-- Under the validity and symbol-table-coverage hypotheses, one Hill
entry is the digit-or-symbol sort key paired with the claim's rendering. -/
theorem entryOf_eq (db : List String) (anyC : Bool) (e : Nat × Nat)
    (hval : validNCrystalZValue e.1 = true)
    (hbound : zIsDeuterium e.1 = false → e.1 < db.length) :
    entryOf db anyC e =
      (if anyC && (e.1 == 1 || zIsDeuterium e.1 || e.1 == 6) then
         (if e.1 == 6 then "1" else if e.1 == 1 then "2" else "3")
       else specSymbol db e.1,
       specRender db e) := by
  by_cases hD : zIsDeuterium e.1 = true
  · have hz : e.1 = 1001 := by
      simpa [zIsDeuterium, specialZValueDeuterium] using hD
    cases anyC with
    | true =>
      simp [entryOf, specRender, specSymbol, hz, zIsDeuterium,
        specialZValueDeuterium, if_count_swap]
    | false =>
      simp [entryOf, specRender, specSymbol, hz, zIsDeuterium,
        specialZValueDeuterium, if_count_swap]
  · simp only [Bool.not_eq_true] at hD
    have hlt : e.1 < db.length := hbound hD
    by_cases hc : (anyC && (e.1 == 1 || zIsDeuterium e.1 || e.1 == 6)) = true
    · have hA : anyC = true := by
        have hcc0 := hc
        simp only [Bool.and_eq_true] at hcc0
        exact hcc0.1
      have h16 : e.1 = 1 ∨ e.1 = 6 := by
        have hcc := hc
        simp only [Bool.and_eq_true, Bool.or_eq_true, beq_iff_eq, hD,
          Bool.false_eq_true, or_false] at hcc
        exact hcc.2
      rcases h16 with h1 | h1
      · have hlt1 : (1 : Nat) < db.length := h1 ▸ hlt
        simp [entryOf, specRender, specSymbol, h1, hA, zIsDeuterium,
          specialZValueDeuterium, hlt1, if_count_swap]
      · have hlt6 : (6 : Nat) < db.length := h1 ▸ hlt
        simp [entryOf, specRender, specSymbol, h1, hA, zIsDeuterium,
          specialZValueDeuterium, hlt6, if_count_swap]
    · simp only [Bool.not_eq_true] at hc
      simp only [entryOf, specRender, specSymbol]
      rw [hc, hD]
      simp [hlt, if_count_swap]

/-- An element outside the carbon/hydrogen/deuterium classes has Hill
class 3. -/
theorem hillRank_eq_three (anyC : Bool) (z : Nat)
    (h : ¬((anyC && (z == 1 || zIsDeuterium z || z == 6)) = true))
    (hA : anyC = true) : hillRank anyC z = 3 := by
  subst hA
  simp only [Bool.true_and, Bool.or_eq_true, beq_iff_eq] at h
  push_neg at h
  have h1 : z ≠ 1 := h.1.1
  have hd : zIsDeuterium z = false := by
    rcases Bool.eq_false_or_eq_true (zIsDeuterium z) with hx | hx
    · exact absurd hx h.1.2
    · exact hx
  have h6 : z ≠ 6 := h.2
  simp [hillRank, h1, hd, h6]

/-- Pointwise agreement of the C++ string-key comparison with the claim's
Hill ordering, for two distinct entries with distinct atomic numbers and
distinct symbols. -/
theorem entryLe_iff_hillSpecLe (db : List String) (anyC : Bool) (a b : Nat × Nat)
    (hvala : validNCrystalZValue a.1 = true)
    (hvalb : validNCrystalZValue b.1 = true)
    (hbounda : zIsDeuterium a.1 = false → a.1 < db.length)
    (hboundb : zIsDeuterium b.1 = false → b.1 < db.length)
    (huppera : headUpper (specSymbol db a.1) = true)
    (hupperb : headUpper (specSymbol db b.1) = true)
    (hne1 : a.1 ≠ b.1) (hnes : specSymbol db a.1 ≠ specSymbol db b.1) :
    (entryLe (entryOf db anyC a) (entryOf db anyC b) ↔ hillSpecLe db anyC a b) := by
  rw [entryOf_eq db anyC a hvala hbounda, entryOf_eq db anyC b hvalb hboundb]
  obtain ⟨ca, csa, hsa, hua1, hua2⟩ := headUpper_spec huppera
  obtain ⟨cb, csb, hsb, hub1, hub2⟩ := headUpper_spec hupperb
  by_cases hca : (anyC && (a.1 == 1 || zIsDeuterium a.1 || a.1 == 6)) = true
  · have hanyC : anyC = true := by
      simp only [Bool.and_eq_true] at hca
      exact hca.1
    have hclsa : a.1 = 1 ∨ a.1 = 1001 ∨ a.1 = 6 := by
      simp only [Bool.and_eq_true, Bool.or_eq_true, beq_iff_eq, zIsDeuterium,
        specialZValueDeuterium] at hca
      exact or_assoc.mp hca.2
    by_cases hcb : (anyC && (b.1 == 1 || zIsDeuterium b.1 || b.1 == 6)) = true
    · -- both in the carbon/hydrogen/deuterium class: concrete digit keys
      have hclsb : b.1 = 1 ∨ b.1 = 1001 ∨ b.1 = 6 := by
        simp only [Bool.and_eq_true, Bool.or_eq_true, beq_iff_eq, zIsDeuterium,
          specialZValueDeuterium] at hcb
        exact or_assoc.mp hcb.2
      rcases hclsa with ha | ha | ha <;> rcases hclsb with hb | hb | hb <;>
        first
        | exact absurd (ha.trans hb.symm) hne1
        | (rw [if_pos hca, if_pos hcb]
           simp [entryLe, hillSpecLe, hillRank, hanyC, ha, hb, zIsDeuterium,
             specialZValueDeuterium, if_pos, if_neg,
             show strLt "1" "2" = true from by decide,
             show strLt "1" "3" = true from by decide,
             show strLt "2" "3" = true from by decide,
             show strLt "2" "1" = false from by decide,
             show strLt "3" "1" = false from by decide,
             show strLt "3" "2" = false from by decide,
             show ("1" : String) ≠ "2" from by decide,
             show ("1" : String) ≠ "3" from by decide,
             show ("2" : String) ≠ "3" from by decide,
             show ("2" : String) ≠ "1" from by decide,
             show ("3" : String) ≠ "1" from by decide,
             show ("3" : String) ≠ "2" from by decide])
    · -- a special, b ordinary: digit key sorts before any uppercase symbol
      have hrb : hillRank anyC b.1 = 3 := hillRank_eq_three anyC b.1 hcb hanyC
      rw [if_pos hca, if_neg hcb]
      have hkey : ∀ d : String, (d = "1" ∨ d = "2" ∨ d = "3") →
          strLt d (specSymbol db b.1) = true := by
        intro d hd
        have h49 : (49 : Nat) < cb.toNat := by omega
        have h50 : (50 : Nat) < cb.toNat := by omega
        have h51 : (51 : Nat) < cb.toNat := by omega
        rcases hd with rfl | rfl | rfl
        · exact strLt_of_heads (show ("1" : String).data = '1' :: [] from rfl) hsb
            (by simpa using h49)
        · exact strLt_of_heads (show ("2" : String).data = '2' :: [] from rfl) hsb
            (by simpa using h50)
        · exact strLt_of_heads (show ("3" : String).data = '3' :: [] from rfl) hsb
            (by simpa using h51)
      have hra : hillRank anyC a.1 < 3 := by
        rcases hclsa with ha | ha | ha <;>
          simp [hillRank, hanyC, ha, zIsDeuterium, specialZValueDeuterium]
      apply iff_of_true
      · left
        apply hkey
        rcases hclsa with ha | ha | ha <;> rw [ha] <;> simp
      · left
        omega
  · -- a is not in the special class
    by_cases hcb : (anyC && (b.1 == 1 || zIsDeuterium b.1 || b.1 == 6)) = true
    · -- symmetric to the case above, with the roles of a and b swapped
      have hanyC : anyC = true := by
        simp only [Bool.and_eq_true] at hcb
        exact hcb.1
      have hclsb : b.1 = 1 ∨ b.1 = 1001 ∨ b.1 = 6 := by
        simp only [Bool.and_eq_true, Bool.or_eq_true, beq_iff_eq, zIsDeuterium,
          specialZValueDeuterium] at hcb
        exact or_assoc.mp hcb.2
      have hra : hillRank anyC a.1 = 3 := hillRank_eq_three anyC a.1 hca hanyC
      have hrb : hillRank anyC b.1 < 3 := by
        rcases hclsb with hb | hb | hb <;>
          simp [hillRank, hanyC, hb, zIsDeuterium, specialZValueDeuterium]
      rw [if_neg hca, if_pos hcb]
      apply iff_of_false
      · rintro (h | ⟨he, _⟩)
        · have : strLt (specSymbol db a.1)
              (if b.1 == 6 then "1" else if b.1 == 1 then "2" else "3") = false := by
            have hfd : ∀ d : String, (d = "1" ∨ d = "2" ∨ d = "3") →
                strLt (specSymbol db a.1) d = false := by
              intro d hd
              rcases hd with rfl | rfl | rfl
              · exact strLt_eq_false_of_heads hsa
                  (show ("1" : String).data = '1' :: [] from rfl)
                  (by simp; omega)
              · exact strLt_eq_false_of_heads hsa
                  (show ("2" : String).data = '2' :: [] from rfl)
                  (by simp; omega)
              · exact strLt_eq_false_of_heads hsa
                  (show ("3" : String).data = '3' :: [] from rfl)
                  (by simp; omega)
            apply hfd
            rcases hclsb with hb | hb | hb <;> rw [hb] <;> simp
          rw [this] at h
          cases h
        · have hnd : specSymbol db a.1
              ≠ (if b.1 == 6 then "1" else if b.1 == 1 then "2" else "3") := by
            have hfd : ∀ d : String, (d = "1" ∨ d = "2" ∨ d = "3") →
                specSymbol db a.1 ≠ d := by
              intro d hd
              rcases hd with rfl | rfl | rfl
              · exact ne_of_heads hsa (show ("1" : String).data = '1' :: [] from rfl)
                  (by simp; omega)
              · exact ne_of_heads hsa (show ("2" : String).data = '2' :: [] from rfl)
                  (by simp; omega)
              · exact ne_of_heads hsa (show ("3" : String).data = '3' :: [] from rfl)
                  (by simp; omega)
            apply hfd
            rcases hclsb with hb | hb | hb <;> rw [hb] <;> simp
          exact hnd he
      · rintro (h | ⟨he, _⟩)
        · omega
        · omega
    · -- neither special: keys are the symbols on both sides
      have hrank : hillRank anyC a.1 = hillRank anyC b.1 := by
        rcases Bool.eq_false_or_eq_true anyC with hA | hA
        · rw [hillRank_eq_three anyC a.1 hca hA, hillRank_eq_three anyC b.1 hcb hA]
        · simp [hA, hillRank]
      rw [if_neg hca, if_neg hcb]
      constructor
      · rintro (h | ⟨he, _⟩)
        · exact Or.inr ⟨hrank, strLe_of_strLt h⟩
        · exact absurd he hnes
      · rintro (h | ⟨_, hl⟩)
        · rw [hrank] at h
          exact absurd h (Nat.lt_irrefl _)
        · exact Or.inl (strLt_of_strLe_ne hl hnes)

/-- **C10.** For a reduced chemical formula whose elements are valid,
covered by the symbol table, and pairwise distinct (in atomic number and
symbol), the rendered Hill-system string concatenates the elements in the
claim's order — carbon first, hydrogen second, deuterium third when carbon
is present, alphabetical by symbol otherwise and within the remainder —
rendering deuterium as "D" and omitting counts equal to 1. -/
theorem claim_C10 (db : List String) (cf : List (Nat × Nat))
    (hval : ∀ e ∈ cf, validNCrystalZValue e.1 = true)
    (hbound : ∀ e ∈ cf, zIsDeuterium e.1 = false → e.1 < db.length)
    (hupper : ∀ e ∈ cf, headUpper (specSymbol db e.1) = true)
    (hndz : (cf.map Prod.fst).Nodup)
    (hnds : (cf.map (fun e => specSymbol db e.1)).Nodup) :
    getChemicalFormulaInHillSystemString db cf
      = String.join ((List.insertionSort (hillSpecLe db (anyCarbon cf)) cf).map
          (specRender db))
    ∧ List.Sorted (hillSpecLe db (anyCarbon cf))
        (List.insertionSort (hillSpecLe db (anyCarbon cf)) cf) := by
  have hagree : ∀ a ∈ cf, ∀ b ∈ cf,
      (entryLe (entryOf db (anyCarbon cf) a) (entryOf db (anyCarbon cf) b)
        ↔ hillSpecLe db (anyCarbon cf) a b) := by
    intro a ha b hb
    by_cases hab : a = b
    · subst hab
      apply iff_of_true
      · exact Or.inr ⟨rfl, strLe_refl _⟩
      · exact Or.inr ⟨rfl, strLe_refl _⟩
    · exact entryLe_iff_hillSpecLe db (anyCarbon cf) a b (hval a ha) (hval b hb)
        (hbound a ha) (hbound b hb) (hupper a ha) (hupper b hb)
        (fun h1 => hab (List.inj_on_of_nodup_map hndz ha hb h1))
        (fun h2 => hab (List.inj_on_of_nodup_map hnds ha hb h2))
  constructor
  · show String.join ((List.insertionSort entryLe
        ((cf.map (entryOf db (anyCarbon cf))))).map Prod.snd) = _
    rw [insertionSort_map_rel entryLe (hillSpecLe db (anyCarbon cf))
        (entryOf db (anyCarbon cf)) cf hagree]
    rw [List.map_map]
    congr 1
    apply List.map_congr_left
    intro e he
    have he' : e ∈ cf :=
      ((List.perm_insertionSort (hillSpecLe db (anyCarbon cf)) cf).mem_iff).mp he
    exact congrArg Prod.snd
      (entryOf_eq db (anyCarbon cf) e (hval e he') (hbound e he'))
  · exact List.sorted_insertionSort _ _

/-- Witness for C10 on a concrete methanol-like formula (carbon present:
carbon first, hydrogen second, oxygen after; the count 1 of carbon and
oxygen is omitted in the rendered string). -/
theorem claim_C10_witness :
    getChemicalFormulaInHillSystemString
        ["nn", "H", "He", "Li", "Be", "B", "C", "N", "O"] [(8, 1), (6, 1), (1, 4)]
      = String.join ((List.insertionSort
          (hillSpecLe ["nn", "H", "He", "Li", "Be", "B", "C", "N", "O"]
            (anyCarbon [(8, 1), (6, 1), (1, 4)])) [(8, 1), (6, 1), (1, 4)]).map
          (specRender ["nn", "H", "He", "Li", "Be", "B", "C", "N", "O"]))
    ∧ List.Sorted (hillSpecLe ["nn", "H", "He", "Li", "Be", "B", "C", "N", "O"]
          (anyCarbon [(8, 1), (6, 1), (1, 4)]))
        (List.insertionSort
          (hillSpecLe ["nn", "H", "He", "Li", "Be", "B", "C", "N", "O"]
            (anyCarbon [(8, 1), (6, 1), (1, 4)])) [(8, 1), (6, 1), (1, 4)]) :=
  claim_C10 ["nn", "H", "He", "Li", "Be", "B", "C", "N", "O"]
    [(8, 1), (6, 1), (1, 4)]
    (by decide) (by decide) (by decide) (by decide) (by decide)

example : getChemicalFormulaInHillSystemString
    ["nn", "H", "He", "Li", "Be", "B", "C", "N", "O"] [(8, 1), (6, 1), (1, 4)]
    = "CH4O" := by decide

/-- Witness for C9 on a concrete aluminium-oxide-like info record
(counts 9 and 6 reduce to O3 Al2, strictly increasing in Z). -/
theorem claim_C9_witness :
    ∃ cf, getChemicalFormula (fun _ => 0)
      { hasComposition := false, composition := [], hasAtomInfo := true,
        atomInfo := [⟨13, 6⟩, ⟨8, 9⟩], hasDensity := true, density := 1,
        hasTemperature := false, temperature := 0 } = .ok cf ∧
      (cf.map Prod.snd).foldl greatestCommonDivisor 0 = 1 ∧
      List.Chain' (fun p q : Nat × Nat => p.1 < q.1) cf :=
  (claim_C9 (fun _ => 0)
      { hasComposition := false, composition := [], hasAtomInfo := true,
        atomInfo := [⟨13, 6⟩, ⟨8, 9⟩], hasDensity := true, density := 1,
        hasTemperature := false, temperature := 0 } rfl).1
    (by decide) (by decide) (by decide)

/-! ## G4 materials, the two caches and the factory environment
(G4NCMatHelper.cc lines 183-363)

The G4 material table is the global `G4Material::GetMaterialTable()`
vector: materials are appended and `GetIndex()` is the position; a table
slot can be null when a material was deleted.  The two `static std::map`
caches are association lists.  External collaborators (the NCrystal
factories `createScatter`/`createInfo`, the `MatCfg` parser and
canonicalizer, the NIST database) are fields of `Env`. -/

/-- The fields of `G4Material` recorded by the translated constructor
calls (state is always `kStateSolid` and therefore omitted). -/
structure G4Material where
  name : String
  density : ℚ
  temperature : ℚ
  pressure : ℚ
  baseIdx : Option Nat
  componentsByCount : List (Nat × Nat)
  componentsByMass : List (String × ℚ)
  chemicalFormula : Option String
  scatterProp : Option Nat
deriving Repr, DecidableEq

/-- An `NCrystal::MatCfg`: its canonical string `toStrCfg(true,0)` (the
cache key, produced by the external canonicalizer) and its pack factor. -/
structure Cfg where
  key : String
  packfact : ℚ
deriving Repr, DecidableEq

/-- The external collaborators of G4NCMatHelper.cc. -/
structure Env where
  getZ : String → Nat
  atomicMass : String → ℚ
  showFrac : ℚ → String
  symbolDb : List String
  parseCfg : String → Except NCError Cfg
  createScatter : Cfg → Except NCError Nat
  createInfo : Cfg → Except NCError NCInfo

/-- The global G4 state: the material table and the two static caches. -/
structure G4State where
  matTable : List (Option G4Material)
  baseCache : List (String × Nat)
  fullCache : List (String × Nat)
deriving Repr, DecidableEq

def lookupA (c : List (String × Nat)) (k : String) : Option Nat :=
  match c with
  | [] => none
  | (k', v) :: rest => if k' = k then some v else lookupA rest k

def insertA (c : List (String × Nat)) (k : String) (v : Nat) : List (String × Nat) :=
  match c with
  | [] => [(k, v)]
  | (k', v') :: rest => if k' = k then (k, v) :: rest else (k', v') :: insertA rest k v

def matAt (st : G4State) (idx : Nat) : Option G4Material :=
  st.matTable.getD idx none

/-- The lookup both caches perform: a cached index counts only when the
material at that index still exists (`if (cachedmat)` — it may have been
deleted). -/
def cacheHitLive (st : G4State) (c : List (String × Nat)) (k : String) : Option Nat :=
  match lookupA c k with
  | some idx =>
    match matAt st idx with
    | some _ => some idx
    | none => none
  | none => none

/-- The fall-back cache key built from the fractional composition
(`ss << (first?"_":"") << ef.first << "_" << ef.second`); the iostream
rendering of the fraction is supplied by the environment. -/
def compKeyAux (showFrac : ℚ → String) : Bool → List (String × ℚ) → String
  | _, [] => ""
  | first, (nm, fr) :: rest =>
    (if first then "_" else "") ++ nm ++ "_" ++ showFrac fr
      ++ compKeyAux showFrac false rest

/-- The chemical formula and cache key `chemform_str` computed at the top
of `getBaseG4MaterialWithCache`, or the error thrown there (all throws of
that function happen before any material is created). -/
def baseKeyOf (env : Env) (info : NCInfo) :
    Except NCError (List (Nat × Nat) × String) :=
  match getChemicalFormula env.getZ info with
  | .error e => .error e
  | .ok cf =>
    if cf.isEmpty then
      if !info.hasComposition then
        .error ⟨.MissingInfo,
          "Selected crystal info source lacks info about atomic composition."⟩
      else .ok (cf, compKeyAux env.showFrac true info.composition)
    else .ok (cf, getChemicalFormulaInHillSystemString env.symbolDb cf)

/-- Mass-fraction components for the composition fall-back: contribution
`fraction * atomicMass`, divided by the total. -/
def massFractions (env : Env) (comp : List (String × ℚ)) : List (String × ℚ) :=
  let contribs := comp.map (fun ef => (ef.1, ef.2 * env.atomicMass ef.1))
  let tot := (contribs.map Prod.snd).foldl (· + ·) 0
  contribs.map (fun p => (p.1, p.2 / tot))

/-- The base material record created by `getBaseG4MaterialWithCache`:
1 g/cm3, solid, 293.15 K (the NCrystal default), 1 atm; components by
integral count from the reduced chemical formula, or by mass fraction from
the composition when no formula is available. -/
def baseMaterialOf (env : Env) (info : NCInfo) (cf : List (Nat × Nat))
    (key : String) : G4Material :=
  { name := "NCrystalBaseMat::" ++ key
    density := 1
    temperature := 29315 / 100
    pressure := 1
    baseIdx := none
    componentsByCount := cf
    componentsByMass := if cf.isEmpty then massFractions env info.composition else []
    chemicalFormula := if cf.isEmpty then none else some key
    scatterProp := none }

/-- `getBaseG4MaterialWithCache` (lines 183-278).  Returns the index of
the base material, the updated state, and the number of base materials
constructed (0 on a live cache hit, 1 otherwise).  The caller already
holds the cache mutex, so the function is deliberately unsynchronized. -/
def getBaseG4MaterialWithCache (env : Env) (info : NCInfo) (st : G4State) :
    Except NCError (Nat × G4State × Nat) :=
  match baseKeyOf env info with
  | .error e => .error e
  | .ok (cf, key) =>
    match cacheHitLive st st.baseCache key with
    | some idx => .ok (idx, st, 0)
    | none =>
      let idx := st.matTable.length
      .ok (idx,
        { st with
            matTable := st.matTable ++ [some (baseMaterialOf env info cf key)],
            baseCache := insertA st.baseCache key idx }, 1)

/-- The derived-material temperature: the info's temperature when present,
otherwise 293.15 K (the NCrystal default, deliberately not G4's 273.15). -/
def derivedTemp (info : NCInfo) : ℚ :=
  if info.hasTemperature then info.temperature else 29315 / 100

/-- The derived material created on a full-cache miss: name
`NCrystal::<cache_key>`, density `packfact * info.density`, the base
material as its base, the derived temperature, 1 atm, and the scatter
object attached as a property by the G4NCrystal manager. -/
def derivedMaterialOf (cfg : Cfg) (info : NCInfo) (sid bidx : Nat) : G4Material :=
  { name := "NCrystal::" ++ cfg.key
    density := cfg.packfact * info.density
    temperature := derivedTemp info
    pressure := 1
    baseIdx := some bidx
    componentsByCount := []
    componentsByMass := []
    chemicalFormula := none
    scatterProp := some sid }

/-- The build path of `getG4MaterialWithCache` on a cache miss:
`createScatter`, `createInfo`, the density check, the base material and
the derived material; the second `Nat` is the number of base materials
constructed. -/
def buildFull (env : Env) (cfg : Cfg) (st : G4State) :
    Except NCError (Nat × G4State × Nat) :=
  match env.createScatter cfg with
  | .error e => .error e
  | .ok sid =>
    match env.createInfo cfg with
    | .error e => .error e
    | .ok info =>
      if !info.hasDensity then
        .error ⟨.MissingInfo,
          "Selected crystal info source lacks info about material density."⟩
      else
        match getBaseG4MaterialWithCache env info st with
        | .error e => .error e
        | .ok (bidx, st1, nb) =>
          let idx := st1.matTable.length
          .ok (idx,
            { st1 with
                matTable := st1.matTable
                  ++ [some (derivedMaterialOf cfg info sid bidx)],
                fullCache := insertA st1.fullCache cfg.key idx }, nb)

/-- Observable outcome of one `getG4MaterialWithCache`/`createMaterial`
call: the returned material index (none when an error was reported), the
error handed to the error handler, the state after the call, the number of
expensive construction attempts (0 on a live cache hit) and the number of
base materials constructed. -/
structure CallOut where
  res : Option Nat
  err : Option NCError
  state : G4State
  fullAttempts : Nat
  baseBuilds : Nat
deriving Repr, DecidableEq

/-- `getG4MaterialWithCache` (lines 280-336), instrumented.  All throws on
the build path happen before any state mutation, so an erroring call
leaves the state unchanged. -/
def getG4MaterialWithCacheS (env : Env) (cfg : Cfg) (st : G4State) : CallOut :=
  match cacheHitLive st st.fullCache cfg.key with
  | some idx => ⟨some idx, none, st, 0, 0⟩
  | none =>
    match buildFull env cfg st with
    | .ok (idx, st', nb) => ⟨some idx, none, st', 1, nb⟩
    | .error e => ⟨none, some e, st, 1, 0⟩

/-- `G4Material* G4NCrystal::createMaterial(const char*)` (lines 339-348):
parse the configuration, delegate to the cache, and catch any NCrystal
exception — reporting it via `Manager::handleError` (the `err` field) and
returning null (`res = none`). -/
def createMaterialS (env : Env) (cfgstr : String) (st : G4State) : CallOut :=
  match env.parseCfg cfgstr with
  | .error e => ⟨none, some e, st, 0, 0⟩
  | .ok cfg => getG4MaterialWithCacheS env cfg st

/-! ### Association-list and material-table lemmas -/

theorem insertA_lookup_self (c : List (String × Nat)) (k : String) (v : Nat) :
    lookupA (insertA c k v) k = some v := by
  induction c with
  | nil => simp [insertA, lookupA]
  | cons p rest ih =>
    obtain ⟨k', v'⟩ := p
    by_cases h : k' = k
    · simp [insertA, lookupA, h]
    · simp [insertA, lookupA, h, ih]

theorem insertA_lookup_other (c : List (String × Nat)) (k k' : String) (v : Nat)
    (h : k' ≠ k) : lookupA (insertA c k v) k' = lookupA c k' := by
  induction c with
  | nil => simp [insertA, lookupA, Ne.symm h]
  | cons p rest ih =>
    obtain ⟨k0, v0⟩ := p
    by_cases h0 : k0 = k
    · subst h0
      simp [insertA, lookupA, Ne.symm h]
    · by_cases h1 : k0 = k'
      · simp [insertA, lookupA, h0, h1, h]
      · simp [insertA, lookupA, h0, h1, ih]

theorem matAt_lt {st : G4State} {idx : Nat} {m : G4Material}
    (h : matAt st idx = some m) : idx < st.matTable.length := by
  by_contra hge
  push_neg at hge
  rw [matAt, List.getD_eq_default _ _ hge] at h
  cases h

theorem matAt_append {st : G4State} {idx : Nat} {m : G4Material} (ext : List (Option G4Material))
    (h : matAt st idx = some m) :
    (st.matTable ++ ext).getD idx none = some m := by
  rw [List.getD_append _ _ _ _ (matAt_lt h)]
  exact h

theorem getD_append_self (l : List (Option G4Material)) (x : Option G4Material) :
    (l ++ [x]).getD l.length none = x := by
  rw [List.getD_append_right _ _ _ _ (Nat.le_refl _)]
  simp

/-! ### Shape lemmas for the cache operations -/

theorem cacheHitLive_eq_some {st : G4State} {c : List (String × Nat)}
    {k : String} {idx : Nat} :
    cacheHitLive st c k = some idx ↔
      lookupA c k = some idx ∧ ∃ m, matAt st idx = some m := by
  unfold cacheHitLive
  constructor
  · intro h
    split at h
    · rename_i j hl
      split at h
      · rename_i m hm
        cases h
        exact ⟨hl, m, hm⟩
      · cases h
    · cases h
  · rintro ⟨hl, m, hm⟩
    simp only [hl, hm]

theorem getBase_ok_shape (env : Env) (info : NCInfo) (st : G4State)
    (bidx : Nat) (st1 : G4State) (nb : Nat)
    (h : getBaseG4MaterialWithCache env info st = .ok (bidx, st1, nb)) :
    ∃ cf key, baseKeyOf env info = .ok (cf, key) ∧
      ((nb = 0 ∧ st1 = st ∧ cacheHitLive st st.baseCache key = some bidx) ∨
       (nb = 1 ∧ cacheHitLive st st.baseCache key = none ∧
        bidx = st.matTable.length ∧
        st1 = { st with
          matTable := st.matTable ++ [some (baseMaterialOf env info cf key)],
          baseCache := insertA st.baseCache key bidx })) := by
  unfold getBaseG4MaterialWithCache at h
  split at h
  · cases h
  · rename_i cf key heq
    split at h
    · rename_i idx hh
      simp only [Except.ok.injEq, Prod.mk.injEq] at h
      obtain ⟨h1, h2, h3⟩ := h
      exact ⟨cf, key, heq, Or.inl ⟨h3.symm, h2.symm, h1 ▸ hh⟩⟩
    · rename_i hh
      simp only [Except.ok.injEq, Prod.mk.injEq] at h
      obtain ⟨h1, h2, h3⟩ := h
      subst h1
      exact ⟨cf, key, heq, Or.inr ⟨h3.symm, hh, rfl, h2.symm⟩⟩

theorem getBase_error_iff (env : Env) (info : NCInfo) (st : G4State) (e : NCError) :
    getBaseG4MaterialWithCache env info st = .error e ↔
      baseKeyOf env info = .error e := by
  constructor
  · intro h
    unfold getBaseG4MaterialWithCache at h
    split at h
    · rename_i e2 heq
      cases h
      exact heq
    · rename_i cf key heq
      split at h <;> cases h
  · intro h
    unfold getBaseG4MaterialWithCache
    rw [h]

theorem buildFull_ok_shape (env : Env) (cfg : Cfg) (st : G4State)
    (idx : Nat) (st2 : G4State) (nb : Nat)
    (h : buildFull env cfg st = .ok (idx, st2, nb)) :
    ∃ sid info bidx st1,
      env.createScatter cfg = .ok sid ∧
      env.createInfo cfg = .ok info ∧
      info.hasDensity = true ∧
      getBaseG4MaterialWithCache env info st = .ok (bidx, st1, nb) ∧
      st1.fullCache = st.fullCache ∧
      (∃ ext1, st1.matTable = st.matTable ++ ext1) ∧
      idx = st1.matTable.length ∧
      st2 = { st1 with
        matTable := st1.matTable ++ [some (derivedMaterialOf cfg info sid bidx)],
        fullCache := insertA st1.fullCache cfg.key idx } := by
  unfold buildFull at h
  split at h
  · cases h
  · rename_i sid hs
    split at h
    · cases h
    · rename_i info hi
      split at h
      · cases h
      · rename_i hdn
        have hd : info.hasDensity = true := by
          rcases Bool.eq_false_or_eq_true info.hasDensity with hx | hx
          · exact hx
          · exact absurd (by simp [hx]) hdn
        split at h
        · cases h
        · rename_i bidx st1 nb2 hbase
          simp only [Except.ok.injEq, Prod.mk.injEq] at h
          obtain ⟨h1, h2, h3⟩ := h
          rw [h3] at hbase
          refine ⟨sid, info, bidx, st1, hs, hi, hd, hbase, ?_, ?_, h1.symm, ?_⟩
          · obtain ⟨cf, key, _, hcase⟩ := getBase_ok_shape env info st bidx st1 nb hbase
            rcases hcase with ⟨_, hst, _⟩ | ⟨_, _, _, hst⟩ <;> rw [hst]
          · obtain ⟨cf, key, _, hcase⟩ := getBase_ok_shape env info st bidx st1 nb hbase
            rcases hcase with ⟨_, hst, _⟩ | ⟨_, _, _, hst⟩
            · exact ⟨[], by rw [hst, List.append_nil]⟩
            · exact ⟨[some (baseMaterialOf env info cf key)], by rw [hst]⟩
          · rw [← h2, h1]

theorem buildFull_error_state_indep (env : Env) (cfg : Cfg) (st st2 : G4State)
    (e : NCError) (h : buildFull env cfg st = .error e) :
    buildFull env cfg st2 = .error e := by
  unfold buildFull at h ⊢
  split at h
  · cases h
    rfl
  · rename_i sid hs
    split at h
    · cases h
      rfl
    · rename_i info hi
      split at h
      · rename_i hdn
        cases h
        rw [if_pos hdn]
      · rename_i hdn
        rw [if_neg hdn]
        split at h
        · rename_i e2 heq
          cases h
          rw [(getBase_error_iff env info st2 _).mpr
            ((getBase_error_iff env info st _).mp heq)]
        · cases h

/-! ### Hit, success and preservation lemmas -/

theorem getG4_hit (env : Env) (cfg : Cfg) (st : G4State) (idx : Nat)
    (h : cacheHitLive st st.fullCache cfg.key = some idx) :
    getG4MaterialWithCacheS env cfg st = ⟨some idx, none, st, 0, 0⟩ := by
  unfold getG4MaterialWithCacheS
  rw [h]

theorem getG4_miss_ok (env : Env) (cfg : Cfg) (st : G4State) (idx : Nat)
    (st2 : G4State) (nb : Nat)
    (hm : cacheHitLive st st.fullCache cfg.key = none)
    (hb : buildFull env cfg st = .ok (idx, st2, nb)) :
    getG4MaterialWithCacheS env cfg st = ⟨some idx, none, st2, 1, nb⟩ := by
  unfold getG4MaterialWithCacheS
  rw [hm, hb]

theorem getG4_miss_err (env : Env) (cfg : Cfg) (st : G4State) (e : NCError)
    (hm : cacheHitLive st st.fullCache cfg.key = none)
    (hb : buildFull env cfg st = .error e) :
    getG4MaterialWithCacheS env cfg st = ⟨none, some e, st, 1, 0⟩ := by
  unfold getG4MaterialWithCacheS
  rw [hm, hb]

theorem getG4_ok_cached (env : Env) (cfg : Cfg) (st : G4State) (idx : Nat)
    (h : (getG4MaterialWithCacheS env cfg st).res = some idx) :
    cacheHitLive (getG4MaterialWithCacheS env cfg st).state
      (getG4MaterialWithCacheS env cfg st).state.fullCache cfg.key = some idx := by
  cases hh : cacheHitLive st st.fullCache cfg.key with
  | some idx0 =>
    rw [getG4_hit env cfg st idx0 hh] at h ⊢
    simp only [Option.some.injEq] at h
    subst h
    exact hh
  | none =>
    cases hb : buildFull env cfg st with
    | error e =>
      rw [getG4_miss_err env cfg st e hh hb] at h
      cases h
    | ok q =>
      obtain ⟨i, st2, nb⟩ := q
      rw [getG4_miss_ok env cfg st i st2 nb hh hb] at h ⊢
      simp only [Option.some.injEq] at h
      subst h
      obtain ⟨sid, info, bidx, st1, _, _, _, _, hfc, ⟨ext1, hmt⟩, hidx, hst2⟩ :=
        buildFull_ok_shape env cfg st i st2 nb hb
      show cacheHitLive st2 st2.fullCache cfg.key = some i
      rw [cacheHitLive_eq_some]
      subst hst2
      constructor
      · show lookupA (insertA st1.fullCache cfg.key i) cfg.key = some i
        exact insertA_lookup_self _ _ _
      · refine ⟨derivedMaterialOf cfg info sid bidx, ?_⟩
        show (st1.matTable ++ [some (derivedMaterialOf cfg info sid bidx)]).getD i none
          = some (derivedMaterialOf cfg info sid bidx)
        rw [hidx, getD_append_self]

theorem getG4_err_state (env : Env) (cfg : Cfg) (st : G4State) (e : NCError)
    (h : (getG4MaterialWithCacheS env cfg st).err = some e) :
    (getG4MaterialWithCacheS env cfg st).state = st := by
  cases hh : cacheHitLive st st.fullCache cfg.key with
  | some idx0 =>
    rw [getG4_hit env cfg st idx0 hh]
  | none =>
    cases hb : buildFull env cfg st with
    | error e2 =>
      rw [getG4_miss_err env cfg st e2 hh hb]
    | ok q =>
      obtain ⟨i, st2, nb⟩ := q
      rw [getG4_miss_ok env cfg st i st2 nb hh hb] at h
      cases h

theorem fullHit_preserved (env : Env) (cfg : Cfg) (st : G4State) (k : String) (idx : Nat)
    (h : cacheHitLive st st.fullCache k = some idx) :
    cacheHitLive (getG4MaterialWithCacheS env cfg st).state
      (getG4MaterialWithCacheS env cfg st).state.fullCache k = some idx := by
  by_cases hkey : k = cfg.key
  · subst hkey
    rw [getG4_hit env cfg st idx h]
    exact h
  · cases hh : cacheHitLive st st.fullCache cfg.key with
    | some idx0 =>
      rw [getG4_hit env cfg st idx0 hh]
      exact h
    | none =>
      cases hb : buildFull env cfg st with
      | error e =>
        rw [getG4_miss_err env cfg st e hh hb]
        exact h
      | ok q =>
        obtain ⟨i, st2, nb⟩ := q
        rw [getG4_miss_ok env cfg st i st2 nb hh hb]
        obtain ⟨sid, info, bidx, st1, _, _, _, _, hfc, ⟨ext1, hmt⟩, hidx, hst2⟩ :=
          buildFull_ok_shape env cfg st i st2 nb hb
        obtain ⟨hl, m, hm⟩ := cacheHitLive_eq_some.mp h
        show cacheHitLive st2 st2.fullCache k = some idx
        rw [cacheHitLive_eq_some]
        subst hst2
        constructor
        · show lookupA (insertA st1.fullCache cfg.key i) k = some idx
          rw [insertA_lookup_other _ _ _ _ hkey, hfc]
          exact hl
        · refine ⟨m, ?_⟩
          show (st1.matTable ++ [some (derivedMaterialOf cfg info sid bidx)]).getD idx none
            = some m
          rw [hmt, List.append_assoc]
          exact matAt_append _ hm

/-- Repeated `createMaterial` calls starting from a state. -/
def runCalls (env : Env) (st : G4State) : List String → G4State
  | [] => st
  | s :: rest => runCalls env (createMaterialS env s st).state rest

theorem fullHit_preserved_call (env : Env) (s : String) (st : G4State)
    (k : String) (idx : Nat) (h : cacheHitLive st st.fullCache k = some idx) :
    cacheHitLive (createMaterialS env s st).state
      (createMaterialS env s st).state.fullCache k = some idx := by
  unfold createMaterialS
  cases hp : env.parseCfg s with
  | error e => exact h
  | ok cfg => exact fullHit_preserved env cfg st k idx h

theorem fullHit_preserved_runCalls (env : Env) (ss : List String) (st : G4State)
    (k : String) (idx : Nat) (h : cacheHitLive st st.fullCache k = some idx) :
    cacheHitLive (runCalls env st ss) (runCalls env st ss).fullCache k = some idx := by
  induction ss generalizing st with
  | nil => exact h
  | cons s rest ih =>
    exact ih _ (fullHit_preserved_call env s st k idx h)

/-! ### Concrete environments for witnesses and counterexamples -/

def stEmpty : G4State := ⟨[], [], []⟩

def infoH : NCInfo :=
  { hasComposition := true, composition := [("H", 1)], hasAtomInfo := false,
    atomInfo := [], hasDensity := true, density := 1,
    hasTemperature := false, temperature := 0 }

/-- A deterministic environment whose builds succeed: every configuration
resolves to elemental hydrogen at reference conditions. -/
def envOk : Env :=
  { getZ := fun _ => 1
    atomicMass := fun _ => 1
    showFrac := fun _ => ""
    symbolDb := ["nn", "H"]
    parseCfg := fun s => .ok ⟨s, 1⟩
    createScatter := fun _ => .ok 7
    createInfo := fun _ => .ok infoH }

def eFail : NCError := ⟨.Other, "createScatter failed"⟩

/-- A deterministic environment whose scatter factory always fails. -/
def envFail : Env :=
  { envOk with createScatter := fun _ => .error eFail }

/-! ### C2: entries are never reconstructed — only for successful keys -/

/-- **C2 (counterexample).** The claim says the expensive construction
runs at most once over any sequence of calls with the same key.  For a
key whose construction fails, no cache entry is ever created: here the
same key is requested twice and the construction runs in both calls
(`fullAttempts = 1` each time, 2 in total). -/
theorem claim_C2_counterexample :
    (createMaterialS envFail "bad" stEmpty).fullAttempts = 1 ∧
    (createMaterialS envFail "bad"
        (createMaterialS envFail "bad" stEmpty).state).fullAttempts = 1 :=
  ⟨rfl, rfl⟩

/-- **C2 (amended).** A cache entry exists only once a construction has
succeeded, and such an entry is never rebuilt: after a successful call for
a key, any later call with the same key — after an arbitrary sequence of
intervening calls — returns the same material index with no construction
work at all. -/
theorem claim_C2 (env : Env) (cfg : Cfg) (st : G4State) (idx : Nat)
    (ss : List String) (cfg2 : Cfg)
    (h1 : (getG4MaterialWithCacheS env cfg st).res = some idx)
    (hk : cfg2.key = cfg.key) :
    getG4MaterialWithCacheS env cfg2
        (runCalls env (getG4MaterialWithCacheS env cfg st).state ss)
      = ⟨some idx, none,
          runCalls env (getG4MaterialWithCacheS env cfg st).state ss, 0, 0⟩ := by
  have hc := getG4_ok_cached env cfg st idx h1
  have hp := fullHit_preserved_runCalls env ss _ cfg.key idx hc
  apply getG4_hit
  rw [hk]
  exact hp

/-- Witness for the amended C2: a successful call, one unrelated call in
between, then the same key again — returned from the cache. -/
theorem claim_C2_witness :
    getG4MaterialWithCacheS envOk ⟨"k1", 1⟩
        (runCalls envOk (getG4MaterialWithCacheS envOk ⟨"k1", 1⟩ stEmpty).state
          ["other"])
      = ⟨some 1, none,
          runCalls envOk (getG4MaterialWithCacheS envOk ⟨"k1", 1⟩ stEmpty).state
            ["other"], 0, 0⟩ :=
  claim_C2 envOk ⟨"k1", 1⟩ stEmpty 1 ["other"] ⟨"k1", 1⟩ rfl rfl

/-! ### C3: failure memoization — the code has none -/

/-- **C3 (counterexample).** The claim says that after a build for a key
fails once, subsequent requests return the recorded error *without
invoking the builder again*.  Here the second identical request performs
a full construction attempt again (`fullAttempts ≠ 0`). -/
theorem claim_C3_counterexample :
    (createMaterialS envFail "bad" stEmpty).err = some eFail ∧
    (createMaterialS envFail "bad"
        (createMaterialS envFail "bad" stEmpty).state).fullAttempts ≠ 0 :=
  ⟨rfl, by decide⟩

/-- **C3 (amended).** A failed build records nothing in the cache and
leaves the state unchanged; every subsequent identical request reports
the same error, but does so by re-running the construction
(`fullAttempts = 1` on each call), not by returning a memoized failure. -/
theorem claim_C3 (env : Env) (s : String) (cfg : Cfg) (st : G4State) (e : NCError)
    (hp : env.parseCfg s = .ok cfg)
    (hmiss : cacheHitLive st st.fullCache cfg.key = none)
    (hb : buildFull env cfg st = .error e) :
    createMaterialS env s st = ⟨none, some e, st, 1, 0⟩ ∧
    createMaterialS env s (createMaterialS env s st).state
      = ⟨none, some e, st, 1, 0⟩ := by
  have h1 : createMaterialS env s st = ⟨none, some e, st, 1, 0⟩ := by
    unfold createMaterialS
    rw [hp]
    exact getG4_miss_err env cfg st e hmiss hb
  refine ⟨h1, ?_⟩
  rw [h1]
  exact h1

/-- Witness for the amended C3 on the always-failing environment. -/
theorem claim_C3_witness :
    createMaterialS envFail "bad" stEmpty = ⟨none, some eFail, stEmpty, 1, 0⟩ ∧
    createMaterialS envFail "bad" (createMaterialS envFail "bad" stEmpty).state
      = ⟨none, some eFail, stEmpty, 1, 0⟩ :=
  claim_C3 envFail "bad" ⟨"bad", 1⟩ stEmpty eFail rfl rfl rfl

/-! ### C4: equal canonical keys share one result object -/

/-- **C4.** Two requests whose configurations canonicalize to the same
cache key return the same material index; the second request performs no
construction and does not change the state. -/
theorem claim_C4 (env : Env) (cfg cfg2 : Cfg) (st : G4State) (idx : Nat)
    (h1 : (getG4MaterialWithCacheS env cfg st).res = some idx)
    (hk : cfg2.key = cfg.key) :
    getG4MaterialWithCacheS env cfg2 (getG4MaterialWithCacheS env cfg st).state
      = ⟨some idx, none, (getG4MaterialWithCacheS env cfg st).state, 0, 0⟩ := by
  have hc := getG4_ok_cached env cfg st idx h1
  apply getG4_hit
  rw [hk]
  exact hc

/-- Witness for C4: the configuration of the end-to-end scenario,
requested twice. -/
theorem claim_C4_witness :
    getG4MaterialWithCacheS envOk ⟨"Al_sg225.ncmat;dcutoff=1.5", 1⟩
        (getG4MaterialWithCacheS envOk ⟨"Al_sg225.ncmat;dcutoff=1.5", 1⟩ stEmpty).state
      = ⟨some 1, none,
          (getG4MaterialWithCacheS envOk
            ⟨"Al_sg225.ncmat;dcutoff=1.5", 1⟩ stEmpty).state, 0, 0⟩ :=
  claim_C4 envOk ⟨"Al_sg225.ncmat;dcutoff=1.5", 1⟩ ⟨"Al_sg225.ncmat;dcutoff=1.5", 1⟩
    stEmpty 1 rfl rfl

/-! ### C5: the layered base-material cache -/

/-- **C5.** On a full-key miss whose composition key is already cached
with a live base material, the call constructs *no* base material
(`baseBuilds = 0` — the expensive step runs at most once per narrow key),
builds the cheap per-configuration specialization fresh (one new derived
material appended to the table, `fullAttempts = 1`), registers it in the
full-key cache only, and leaves the base cache unchanged. -/
theorem claim_C5 (env : Env) (cfg : Cfg) (st : G4State) (info : NCInfo)
    (sid : Nat) (cf : List (Nat × Nat)) (bkey : String) (bidx : Nat)
    (hmiss : cacheHitLive st st.fullCache cfg.key = none)
    (hsc : env.createScatter cfg = .ok sid)
    (hci : env.createInfo cfg = .ok info)
    (hd : info.hasDensity = true)
    (hbk : baseKeyOf env info = .ok (cf, bkey))
    (hbhit : cacheHitLive st st.baseCache bkey = some bidx) :
    getG4MaterialWithCacheS env cfg st =
      ⟨some st.matTable.length, none,
       { st with
           matTable := st.matTable ++ [some (derivedMaterialOf cfg info sid bidx)],
           fullCache := insertA st.fullCache cfg.key st.matTable.length }, 1, 0⟩ := by
  have hbase : getBaseG4MaterialWithCache env info st = .ok (bidx, st, 0) := by
    unfold getBaseG4MaterialWithCache
    simp only [hbk, hbhit]
  have hb : buildFull env cfg st =
      .ok (st.matTable.length,
        { st with
            matTable := st.matTable ++ [some (derivedMaterialOf cfg info sid bidx)],
            fullCache := insertA st.fullCache cfg.key st.matTable.length }, 0) := by
    unfold buildFull
    simp only [hsc, hci, hd, Bool.not_true, Bool.false_eq_true, if_false, hbase]
  exact getG4_miss_ok env cfg st _ _ _ hmiss hb

/-- Witness for C5: a second configuration with a different full key but
the same hydrogen composition reuses the base material built by the first
call (base index 0) and appends only the new derived material. -/
theorem claim_C5_witness :
    getG4MaterialWithCacheS envOk ⟨"k2", 1⟩
        (getG4MaterialWithCacheS envOk ⟨"k1", 1⟩ stEmpty).state =
      ⟨some (getG4MaterialWithCacheS envOk ⟨"k1", 1⟩ stEmpty).state.matTable.length,
       none,
       { (getG4MaterialWithCacheS envOk ⟨"k1", 1⟩ stEmpty).state with
           matTable := (getG4MaterialWithCacheS envOk ⟨"k1", 1⟩ stEmpty).state.matTable
             ++ [some (derivedMaterialOf ⟨"k2", 1⟩ infoH 7 0)],
           fullCache := insertA
             (getG4MaterialWithCacheS envOk ⟨"k1", 1⟩ stEmpty).state.fullCache "k2"
             (getG4MaterialWithCacheS envOk ⟨"k1", 1⟩ stEmpty).state.matTable.length },
       1, 0⟩ :=
  claim_C5 envOk ⟨"k2", 1⟩ (getG4MaterialWithCacheS envOk ⟨"k1", 1⟩ stEmpty).state
    infoH 7 [(1, 1)] "H" 0 rfl rfl rfl rfl rfl rfl

/-! ### C6: no NCrystal error escapes createMaterial -/

/-- **C6.** `createMaterial` is total on the model: every call either
returns a material index with no error reported, or reports the NCrystal
error to the error handler, returns null, and leaves the state unchanged.
No NCrystal exception propagates out (the C++ `try`/`catch` around the
whole body). -/
theorem claim_C6 (env : Env) (s : String) (st : G4State) :
    ((createMaterialS env s st).err = none ∧
      (createMaterialS env s st).res.isSome = true)
    ∨ (∃ e, (createMaterialS env s st).err = some e ∧
        (createMaterialS env s st).res = none ∧
        (createMaterialS env s st).state = st) := by
  cases hp : env.parseCfg s with
  | error e =>
    have hcall : createMaterialS env s st = ⟨none, some e, st, 0, 0⟩ := by
      unfold createMaterialS
      rw [hp]
    rw [hcall]
    exact Or.inr ⟨e, rfl, rfl, rfl⟩
  | ok cfg =>
    have hcall : createMaterialS env s st = getG4MaterialWithCacheS env cfg st := by
      unfold createMaterialS
      rw [hp]
    rw [hcall]
    cases hh : cacheHitLive st st.fullCache cfg.key with
    | some idx =>
      rw [getG4_hit env cfg st idx hh]
      exact Or.inl ⟨rfl, rfl⟩
    | none =>
      cases hb : buildFull env cfg st with
      | ok q =>
        obtain ⟨i, st2, nb⟩ := q
        rw [getG4_miss_ok env cfg st i st2 nb hh hb]
        exact Or.inl ⟨rfl, rfl⟩
      | error e =>
        rw [getG4_miss_err env cfg st e hh hb]
        exact Or.inr ⟨e, rfl, rfl, rfl⟩

/-! ### C7: the 293.15 K default temperature -/

/-- **C7.** The derived material is created at the info's temperature
when one is present and at exactly 293.15 K when none is; the shared base
material is always created at 293.15 K; and an info carrying an explicit
293.15 K temperature produces the identical derived material as the same
info with the temperature omitted. -/
theorem claim_C7 (env : Env) (cfg : Cfg) (st : G4State) (info : NCInfo)
    (idx : Nat) (st2 : G4State) (nb : Nat)
    (hci : env.createInfo cfg = .ok info)
    (hb : buildFull env cfg st = .ok (idx, st2, nb)) :
    ((matAt st2 idx).map G4Material.temperature = some (derivedTemp info))
    ∧ (info.hasTemperature = false →
        (matAt st2 idx).map G4Material.temperature = some (29315 / 100))
    ∧ (∀ env2 info2 cf2 key2,
        (baseMaterialOf env2 info2 cf2 key2).temperature = 29315 / 100)
    ∧ (∀ (info3 : NCInfo) (cfg2 : Cfg) (sid2 bidx2 : Nat),
        info3.hasTemperature = true → info3.temperature = 29315 / 100 →
        derivedMaterialOf cfg2 info3 sid2 bidx2
          = derivedMaterialOf cfg2 { info3 with hasTemperature := false } sid2 bidx2) := by
  obtain ⟨sid, info', bidx, st1, hsc, hci', hd, hbase, hfc, ⟨ext1, hmt⟩, hidx, hst2⟩ :=
    buildFull_ok_shape env cfg st idx st2 nb hb
  rw [hci] at hci'
  injection hci' with hinfo
  subst hinfo
  have hmat : matAt st2 idx = some (derivedMaterialOf cfg info sid bidx) := by
    subst hst2
    show (st1.matTable ++ [some (derivedMaterialOf cfg info sid bidx)]).getD idx none
      = some (derivedMaterialOf cfg info sid bidx)
    rw [hidx, getD_append_self]
  refine ⟨?_, ?_, ?_, ?_⟩
  · rw [hmat]
    rfl
  · intro ht
    rw [hmat]
    simp [derivedMaterialOf, derivedTemp, ht]
  · intro env2 info2 cf2 key2
    rfl
  · intro info3 cfg2 sid2 bidx2 hT hTv
    unfold derivedMaterialOf derivedTemp
    rw [hT, hTv]
    simp

/-- Witness for C7: the hydrogen info carries no temperature, so the
derived material of the successful build sits at exactly 293.15 K. -/
theorem claim_C7_witness :
    (matAt (getG4MaterialWithCacheS envOk ⟨"k", 1⟩ stEmpty).state 1).map
        G4Material.temperature = some (29315 / 100) :=
  (claim_C7 envOk ⟨"k", 1⟩ stEmpty infoH 1
    (getG4MaterialWithCacheS envOk ⟨"k", 1⟩ stEmpty).state 1 rfl rfl).2.1 rfl

/-! ## Builtin plugin registration (src/CMakeLists.txt lines 337-385)

The CMake configuration keeps a list `all_plugin_names_lc` of lowercased
plugin names seeded with the standard plugins, reads each builtin
plugin's name, and raises `FATAL_ERROR` (aborting the configuration) when
the lowercased name is already in the list; otherwise the name is
appended. -/

/-- ASCII lowercasing of one character (CMake `string(TOLOWER ...)`). -/
def charLower (c : Char) : Char :=
  if 65 ≤ c.toNat ∧ c.toNat ≤ 90 then Char.ofNat (c.toNat + 32) else c

/-- ASCII lowercasing of a string. -/
def strToLower (s : String) : String := ⟨s.data.map charLower⟩

/-- `set(all_plugin_names_lc "stdscat;stdabs;stdncmat")`, plus `nxslaz`
when `BUILD_EXTRA` is enabled. -/
def standardPluginNames (buildExtra : Bool) : List String :=
  ["stdscat", "stdabs", "stdncmat"] ++ (if buildExtra then ["nxslaz"] else [])

/-- One registration step of the `foreach` loop: lowercase the plugin
name, fail with `FATAL_ERROR` when it is already registered, append it
otherwise. -/
def addPluginName (names : List String) (pluginName : String) :
    Except String (List String) :=
  let lc := strToLower pluginName
  if names.contains lc then
    .error ("Multiple plugins have the same name (must be unique and not clash with standard plugins): "
      ++ pluginName ++ ".")
  else
    .ok (names ++ [lc])

/-- The name bookkeeping of the whole `foreach(pluginentry ...)` loop. -/
def registerPlugins (buildExtra : Bool) (plugins : List String) :
    Except String (List String) :=
  plugins.foldlM addPluginName (standardPluginNames buildExtra)

theorem registerPlugins_aux (plugins : List String) (acc res : List String)
    (hn : acc.Nodup) (h : plugins.foldlM addPluginName acc = .ok res) :
    res.Nodup := by
  induction plugins generalizing acc with
  | nil =>
    rw [List.foldlM_nil] at h
    cases h
    exact hn
  | cons p rest ih =>
    rw [List.foldlM_cons] at h
    cases hstep : addPluginName acc p with
    | error m =>
      rw [hstep] at h
      cases h
    | ok acc2 =>
      rw [hstep] at h
      have h2 : List.foldlM addPluginName acc2 rest = .ok res := h
      unfold addPluginName at hstep
      by_cases hc : acc.contains (strToLower p) = true
      · rw [if_pos hc] at hstep
        cases hstep
      · rw [if_neg hc] at hstep
        injection hstep with hacc2
        simp only [Bool.not_eq_true] at hc
        have hmem : strToLower p ∉ acc := by
          intro hm
          rw [List.contains_eq_any_beq] at hc
          simp at hc
          exact hc _ hm rfl
        have hacc : (acc ++ [strToLower p]).Nodup := by
          simp [List.nodup_append, hmem, hn]
        exact ih acc2 (hacc2 ▸ hacc) h2

/-- **C8.** Registering a plugin under a name already registered —
compared case-insensitively, including the standard plugin names — fails
with an error instead of silently replacing or duplicating the existing
registration; consequently a successful registration run yields a
duplicate-free name list. -/
theorem claim_C8 :
    (∀ (names : List String) (n : String),
      names.contains (strToLower n) = true →
      ∃ m, addPluginName names n = .error m)
  ∧ (∀ buildExtra : Bool,
      ∃ m, addPluginName (standardPluginNames buildExtra) "StdScat" = .error m)
  ∧ (∀ (buildExtra : Bool) (plugins res : List String),
      registerPlugins buildExtra plugins = .ok res → res.Nodup) := by
  refine ⟨?_, ?_, ?_⟩
  · intro names n hc
    refine ⟨"Multiple plugins have the same name (must be unique and not clash with standard plugins): "
      ++ n ++ ".", ?_⟩
    unfold addPluginName
    rw [if_pos hc]
  · intro buildExtra
    refine ⟨"Multiple plugins have the same name (must be unique and not clash with standard plugins): "
      ++ "StdScat" ++ ".", ?_⟩
    unfold addPluginName
    rw [if_pos ?_]
    cases buildExtra <;> decide
  · intro buildExtra plugins res h
    refine registerPlugins_aux plugins (standardPluginNames buildExtra) res ?_ h
    cases buildExtra <;> decide

/-- Witness for C8: a case-varied clash with the built-in `stdscat`
plugin is rejected, and a clean registration run produces a
duplicate-free registry. -/
theorem claim_C8_witness :
    (∃ m, addPluginName ["stdscat", "stdabs", "stdncmat"] "StdScat" = .error m) ∧
    (["stdscat", "stdabs", "stdncmat", "myplugin"] : List String).Nodup :=
  ⟨claim_C8.1 ["stdscat", "stdabs", "stdncmat"] "StdScat" (by decide),
   claim_C8.2.2 false ["MyPlugin"] ["stdscat", "stdabs", "stdncmat", "myplugin"]
     (by decide)⟩

/-! ## A thread-interleaving model of the cache (C1)

`getG4MaterialWithCache` takes the single *global* `cache_mutex` with a
`std::lock_guard` at function entry and holds it across the entire lookup
and build.  Each thread's call is modelled in two transitions: acquire
the mutex (impossible while any other thread holds it), then execute the
whole locked body atomically and release. -/

inductive ThreadPhase where
  | start
  | locked
  | done (res : Option Nat) (err : Option NCError)
deriving Repr, DecidableEq

/-- A system of `n` concurrent threads, each requesting one configuration
through the shared cache. -/
structure Sys (n : Nat) where
  env : Env
  cfgs : Fin n → Cfg

structure SysState (n : Nat) where
  phases : Fin n → ThreadPhase
  mutex : Option (Fin n)
  g4 : G4State

def initState (n : Nat) (st0 : G4State) : SysState n :=
  { phases := fun _ => .start, mutex := none, g4 := st0 }

def setPhase {n : Nat} (ph : Fin n → ThreadPhase) (t : Fin n) (v : ThreadPhase) :
    Fin n → ThreadPhase :=
  fun u => if u = t then v else ph u

/-- One transition of thread `t`; `none` when the thread cannot move — in
particular when it is waiting for the mutex. -/
def step {n : Nat} (sys : Sys n) (t : Fin n) (s : SysState n) :
    Option (SysState n) :=
  match s.phases t with
  | .start =>
    match s.mutex with
    | none => some { s with phases := setPhase s.phases t .locked, mutex := some t }
    | some _ => none
  | .locked =>
    if s.mutex = some t then
      some { phases := setPhase s.phases t
               (.done (getG4MaterialWithCacheS sys.env (sys.cfgs t) s.g4).res
                      (getG4MaterialWithCacheS sys.env (sys.cfgs t) s.g4).err),
             mutex := none,
             g4 := (getG4MaterialWithCacheS sys.env (sys.cfgs t) s.g4).state }
    else none
  | .done _ _ => none

/-- Run a schedule: each entry names the thread that attempts the next
step; a disabled thread leaves the state unchanged. -/
def run {n : Nat} (sys : Sys n) (s : SysState n) : List (Fin n) → SysState n
  | [] => s
  | t :: rest => run sys ((step sys t s).getD s) rest

theorem getG4_err_buildFull (env : Env) (cfg : Cfg) (st : G4State) (e : NCError)
    (h : (getG4MaterialWithCacheS env cfg st).err = some e) :
    buildFull env cfg st = .error e := by
  cases hh : cacheHitLive st st.fullCache cfg.key with
  | some idx =>
    rw [getG4_hit env cfg st idx hh] at h
    cases h
  | none =>
    cases hb : buildFull env cfg st with
    | error e2 =>
      rw [getG4_miss_err env cfg st e2 hh hb] at h
      injection h with h2
      rw [h2]
    | ok q =>
      obtain ⟨i, st2, nb⟩ := q
      rw [getG4_miss_ok env cfg st i st2 nb hh hb] at h
      cases h

/-- The success invariant of a run: every thread that finished
successfully with key `K` finished with the index that the shared cache
holds, live, for `K`. -/
theorem run_inv_ok {n : Nat} (sys : Sys n) (K : String) (sched : List (Fin n))
    (s0 : SysState n)
    (h0 : ∀ v i, (sys.cfgs v).key = K →
      s0.phases v = ThreadPhase.done (some i) none →
      cacheHitLive s0.g4 s0.g4.fullCache K = some i) :
    ∀ v i, (sys.cfgs v).key = K →
      (run sys s0 sched).phases v = ThreadPhase.done (some i) none →
      cacheHitLive (run sys s0 sched).g4 (run sys s0 sched).g4.fullCache K = some i := by
  induction sched generalizing s0 with
  | nil => exact h0
  | cons w rest ih =>
    show ∀ v i, _ → (run sys ((step sys w s0).getD s0) rest).phases v = _ → _
    apply ih
    intro v i hkv hdone
    cases hstep : step sys w s0 with
    | none =>
      rw [hstep] at hdone
      exact h0 v i hkv hdone
    | some s1 =>
      rw [hstep] at hdone
      simp only [Option.getD_some] at hdone ⊢
      unfold step at hstep
      split at hstep
      · -- thread w was at .start
        split at hstep
        · -- mutex free: w acquires; no done-phase or cache change
          injection hstep with hs1
          subst hs1
          simp only [setPhase] at hdone
          by_cases hvw : v = w
          · rw [if_pos hvw] at hdone
            cases hdone
          · rw [if_neg hvw] at hdone
            exact h0 v i hkv hdone
        · cases hstep
      · -- thread w was .locked and executes the whole body
        split at hstep
        · injection hstep with hs1
          subst hs1
          simp only [setPhase] at hdone ⊢
          by_cases hvw : v = w
          · rw [if_pos hvw] at hdone
            injection hdone with hres herr
            have := getG4_ok_cached sys.env (sys.cfgs w) s0.g4 i (by rw [hres])
            rw [hvw] at hkv
            rw [← hkv]
            exact this
          · rw [if_neg hvw] at hdone
            have hprev := h0 v i hkv hdone
            exact fullHit_preserved sys.env (sys.cfgs w) s0.g4 K i hprev
        · cases hstep
      · cases hstep

/-- The failure invariant of a run: every thread that finished with an
error for configuration `c0` carries the (state-independent) build error
of `c0`. -/
theorem run_inv_err {n : Nat} (sys : Sys n) (c0 : Cfg) (sched : List (Fin n))
    (s0 : SysState n)
    (h0 : ∀ v e, sys.cfgs v = c0 →
      s0.phases v = ThreadPhase.done none (some e) →
      ∀ stx, buildFull sys.env c0 stx = .error e) :
    ∀ v e, sys.cfgs v = c0 →
      (run sys s0 sched).phases v = ThreadPhase.done none (some e) →
      ∀ stx, buildFull sys.env c0 stx = .error e := by
  induction sched generalizing s0 with
  | nil => exact h0
  | cons w rest ih =>
    show ∀ v e, _ → (run sys ((step sys w s0).getD s0) rest).phases v = _ → _
    apply ih
    intro v e hkv hdone
    cases hstep : step sys w s0 with
    | none =>
      rw [hstep] at hdone
      exact h0 v e hkv hdone
    | some s1 =>
      rw [hstep] at hdone
      simp only [Option.getD_some] at hdone
      unfold step at hstep
      split at hstep
      · split at hstep
        · injection hstep with hs1
          subst hs1
          simp only [setPhase] at hdone
          by_cases hvw : v = w
          · rw [if_pos hvw] at hdone
            cases hdone
          · rw [if_neg hvw] at hdone
            exact h0 v e hkv hdone
        · cases hstep
      · split at hstep
        · injection hstep with hs1
          subst hs1
          simp only [setPhase] at hdone
          by_cases hvw : v = w
          · rw [if_pos hvw] at hdone
            injection hdone with hres herr
            intro stx
            have herr2 : (getG4MaterialWithCacheS sys.env (sys.cfgs w) s0.g4).err
                = some e := by rw [herr]
            have hb := getG4_err_buildFull sys.env (sys.cfgs w) s0.g4 e herr2
            rw [hvw] at hkv
            rw [← hkv]
            exact buildFull_error_state_indep sys.env (sys.cfgs w) s0.g4 stx e hb
          · rw [if_neg hvw] at hdone
            exact h0 v e hkv hdone
        · cases hstep
      · cases hstep

/-- A two-thread system requesting two *different* keys. -/
def sysAB : Sys 2 :=
  { env := envOk, cfgs := fun t => if t = 0 then ⟨"A", 1⟩ else ⟨"B", 1⟩ }

/-- A two-thread system requesting the same key. -/
def sysKK : Sys 2 :=
  { env := envOk, cfgs := fun _ => ⟨"K", 1⟩ }

/-- **C1 (counterexample).** The claim says a build in progress for one
key never blocks a concurrent request for a different, unrelated key.  In
the code the single global `cache_mutex` is held for the whole lookup and
build, so while thread 0 is inside its build of key "A" (it holds the
mutex), thread 1 — requesting the unrelated key "B" — has *no* enabled
transition: it is blocked. -/
theorem claim_C1_counterexample :
    (sysAB.cfgs 0).key ≠ (sysAB.cfgs 1).key ∧
    (step sysAB 0 (initState 2 stEmpty)).isSome = true ∧
    ((step sysAB 0 (initState 2 stEmpty)).getD (initState 2 stEmpty)).mutex = some 0 ∧
    ((step sysAB 0 (initState 2 stEmpty)).getD (initState 2 stEmpty)).phases 0
      = ThreadPhase.locked ∧
    step sysAB 1 ((step sysAB 0 (initState 2 stEmpty)).getD (initState 2 stEmpty))
      = none := by
  refine ⟨by decide, rfl, rfl, rfl, rfl⟩

/-- **C1 (amended).** For every cache key, all concurrent requesters that
complete observe the same result object (same material index) or the same
error, and once one requester has succeeded every further request for
that key is served from the cache with no construction at all; however,
the per-key exclusion is implemented as a single global mutex held across
the whole build, so a build in progress for one key blocks concurrent
requests for *every* key, related or not. -/
theorem claim_C1 :
    -- a build in progress blocks every other thread, whatever its key
    (∀ (n : Nat) (sys : Sys n) (s : SysState n) (t u : Fin n),
      s.mutex = some t → u ≠ t → step sys u s = none)
  ∧ -- successful requesters of one key all received the same object
    (∀ (n : Nat) (sys : Sys n) (st0 : G4State) (sched : List (Fin n))
        (t u : Fin n) (i j : Nat),
      (sys.cfgs t).key = (sys.cfgs u).key →
      (run sys (initState n st0) sched).phases t = ThreadPhase.done (some i) none →
      (run sys (initState n st0) sched).phases u = ThreadPhase.done (some j) none →
      i = j)
  ∧ -- failing requesters of one configuration all received the same error
    (∀ (n : Nat) (sys : Sys n) (st0 : G4State) (sched : List (Fin n))
        (t u : Fin n) (e1 e2 : NCError),
      sys.cfgs t = sys.cfgs u →
      (run sys (initState n st0) sched).phases t = ThreadPhase.done none (some e1) →
      (run sys (initState n st0) sched).phases u = ThreadPhase.done none (some e2) →
      e1 = e2)
  ∧ -- once one requester succeeded, later requests for the key are pure
    -- cache hits: same object, no construction
    (∀ (n : Nat) (sys : Sys n) (st0 : G4State) (sched : List (Fin n))
        (t : Fin n) (i : Nat) (cfg2 : Cfg),
      cfg2.key = (sys.cfgs t).key →
      (run sys (initState n st0) sched).phases t = ThreadPhase.done (some i) none →
      getG4MaterialWithCacheS sys.env cfg2 (run sys (initState n st0) sched).g4
        = ⟨some i, none, (run sys (initState n st0) sched).g4, 0, 0⟩) := by
  refine ⟨?_, ?_, ?_, ?_⟩
  · intro n sys s t u hm hu
    unfold step
    cases hp : s.phases u with
    | start => rw [hm]
    | locked =>
      rw [if_neg ?_]
      rw [hm]
      intro hc
      injection hc with hc
      exact hu hc.symm
    | done r e => rfl
  · intro n sys st0 sched t u i j hk ht hu
    have hinv := run_inv_ok sys (sys.cfgs u).key sched (initState n st0)
      (fun v i2 _ hd => by cases hd)
    have h1 := hinv t i hk ht
    have h2 := hinv u j rfl hu
    rw [h1] at h2
    injection h2
  · intro n sys st0 sched t u e1 e2 hk ht hu
    have hinv := run_inv_err sys (sys.cfgs u) sched (initState n st0)
      (fun v e _ hd => by cases hd)
    have h1 := hinv t e1 hk ht stEmpty
    have h2 := hinv u e2 rfl hu stEmpty
    rw [h1] at h2
    injection h2 with h2
  · intro n sys st0 sched t i cfg2 hk ht
    have hinv := run_inv_ok sys (sys.cfgs t).key sched (initState n st0)
      (fun v i2 _ hd => by cases hd)
    have h1 := hinv t i rfl ht
    apply getG4_hit
    rw [hk]
    exact h1

/-- Witness for the amended C1: two threads race for the same key "K";
under the schedule 0,0,1,1 the first builds (object index 1) and the
second is served the same object from the cache. -/
theorem claim_C1_witness :
    (run sysKK (initState 2 stEmpty) [0, 0, 1, 1]).phases 0
        = ThreadPhase.done (some 1) none ∧
    (run sysKK (initState 2 stEmpty) [0, 0, 1, 1]).phases 1
        = ThreadPhase.done (some 1) none ∧
    (1 : Nat) = 1 :=
  ⟨rfl, rfl,
    claim_C1.2.1 2 sysKK stEmpty [0, 0, 1, 1] 0 1 1 1 rfl rfl rfl⟩

end NCG4
